import Mathlib

/-!
# HarborMaster sync core — shallow embedding

A shallow embedding of the HarborMaster sync orchestration engine
(`pkg/manager`, `pkg/downloader`, `pkg/lockfile`, `pkg/config`,
`pkg/types`) in Lean 4, together with theorems settling the claims
about its specification.

Conventions:
* Go strings are `String`; the refs handled here are ASCII, so Go's
  byte indexing coincides with character indexing.
* Go `error` values are modelled by the structured inductive `GoError`;
  `fmt.Errorf("...: %w", e)` wrappings become dedicated constructors.
* External effects (the filesystem, the git binary, the HTTP backend,
  channel deliveries, wall-clock time) are supplied as explicit oracle
  parameters; the functions below are otherwise direct translations of
  the Go source.
* A Go string slice `s[:8]` panics when `len(s) < 8`; functions that may
  reach such a slice return `Option _`, with `none` marking the panic.
-/

namespace HarborMaster

/-- `types.ProgressPhase` (part_000): the phase of an operation.
The Go values are strings; we use an enumeration of the six constants. -/
inductive ProgressPhase where
  | init
  | connecting
  | fetching
  | checkout
  | complete
  | failed
deriving DecidableEq, Repr

/-- Structured model of Go `error` values produced by the sync core.
Each `fmt.Errorf` wrapping in the source gets its own constructor so that
"wraps" claims are meaningful. `msg` stands for any foreign error value
(OS errors, git process errors, HTTP client errors). -/
inductive GoError where
  /-- an opaque error from a collaborator (OS, git binary, HTTP client) -/
  | msg (s : String)
  /-- a Go `nil` error used as a `%w` argument (possible when a retry loop
  body runs zero times and `lastErr` is still nil) -/
  | nilError
  /-- "no lock entry for repository (run sync without --locked first)" -/
  | noLockEntry
  /-- "unknown repository type: %s" (downloader.New) -/
  | unknownRepoType (t : String)
  /-- "failed to create downloader: %w" (syncRepository) -/
  | downloaderCreate (inner : GoError)
  /-- "source URL not set" (HTTPDownloader.Update/UpdateWithProgress) -/
  | sourceNotSet
  /-- "failed to get current ref: %w" (syncRepository) -/
  | getCurrentRefFailed (inner : GoError)
  /-- "SHA mismatch: expected %s, got %s" with the two 8-char slices -/
  | shaMismatch (expected got : String)
  /-- "repository not found: %s" (getRepositories / Config.GetRepository callers) -/
  | repoNotFound (name : String)
  /-- "project not found: %s" (Config.GetProject callers) -/
  | projectNotFound (name : String)
  /-- "repository %s not found in project %s" -/
  | repoNotFoundInProject (repoName projName : String)
  /-- "failed to create work directory: %w" (Sync) -/
  | workDirFailed (inner : GoError)
  /-- "failed to start UI: %w" (Sync) -/
  | uiStartFailed (inner : GoError)
  /-- "failed to create directory: %w" (HTTPDownloader) -/
  | mkdirFailed (inner : GoError)
  /-- "HTTP %d: %s" non-200 status (downloadFile) -/
  | httpStatus (code : Int) (status : String)
  /-- "download failed after %d attempts: %w" (HTTPDownloader.Download);
  the wrapped error is `nilError` when the loop body never ran -/
  | downloadFailedAfter (attempts : Int) (last : GoError)
  /-- "download failed: %w" (HTTPDownloader.DownloadWithProgress) -/
  | downloadFailed (last : GoError)
  /-- "failed to create pipe: %w" (Git *WithProgress) -/
  | pipeFailed (inner : GoError)
  /-- "failed to start git: %w" (Git *WithProgress) -/
  | gitStartFailed (inner : GoError)
  /-- "clone failed: %w" (GitDownloader.DownloadWithProgress) -/
  | cloneFailed (inner : GoError)
  /-- "fetch failed: %w" / "failed to fetch: %w" (GitDownloader update paths) -/
  | fetchFailed (inner : GoError)
  /-- "failed to checkout %s: %w" (GitDownloader.checkoutRef) -/
  | checkoutFailed (ref : String) (inner : GoError)
  /-- "failed to get HEAD SHA: %w" (GitDownloader.getHeadSHA) -/
  | headShaFailed (inner : GoError)
deriving DecidableEq, Repr

/-- `types.ProgressUpdate` (part_000): the internal progress message from
downloaders. `objectsTotal`/`objectsDone` are never written by the two
backends and are omitted. -/
structure ProgressUpdate where
  phase : ProgressPhase
  bytesTotal : Int
  bytesDone : Int
  message : String
  error : Option GoError
deriving DecidableEq, Repr

/-- `ProgressUpdate.IsComplete` (part_000): terminal-phase test. -/
def ProgressUpdate.IsComplete (p : ProgressUpdate) : Bool :=
  p.phase = ProgressPhase.complete || p.phase = ProgressPhase.failed

/-- `types.OperationResult` (part_001). `Duration` is wall-clock time and
is omitted from the model. -/
structure OperationResult where
  repoName : String
  repoURL : String
  success : Bool
  error : Option GoError
  commitSHA : String
  branch : String
  tag : String
deriving DecidableEq, Repr

/-- `types.SyncResult` (part_001). `Duration` omitted (wall-clock). -/
structure SyncResult where
  totalRepos : Nat
  successCount : Nat
  failureCount : Nat
  results : List OperationResult
deriving DecidableEq, Repr

/-- `types.NewSyncResult` (part_001): counts successes and failures over
the result list. -/
def NewSyncResult (results : List OperationResult) : SyncResult :=
  { totalRepos := results.length
    successCount := (results.filter (fun r => r.success)).length
    failureCount := (results.filter (fun r => !r.success)).length
    results := results }

/-- The zero value `&types.SyncResult{}` returned by `Sync` for an empty
repository set. -/
def SyncResult.empty : SyncResult :=
  { totalRepos := 0, successCount := 0, failureCount := 0, results := [] }

/-- `SyncResult.HasFailures` (part_001). -/
def SyncResult.HasFailures (sr : SyncResult) : Bool :=
  sr.failureCount > 0

/-- `config.Repository` (pkg/config/repository.go). The Go `Type` field
(a string such as "git" or "http") is embedded as `rtype`. -/
structure Repository where
  name : String
  url : String
  rtype : String
  path : String
  branch : String
  tag : String
  commit : String
  shallow : Option Bool
  depth : Option Int
  submodules : Option Bool
  tags : List String
deriving DecidableEq, Repr

/-- `Repository.GetEffectiveRef` (repository.go): commit > tag > branch >
default-branch priority. -/
def Repository.GetEffectiveRef (r : Repository) (defaultBranch : String) : String :=
  if r.commit ≠ "" then r.commit
  else if r.tag ≠ "" then r.tag
  else if r.branch ≠ "" then r.branch
  else defaultBranch

/-- `Repository.GetEffectivePath` (repository.go). -/
def Repository.GetEffectivePath (r : Repository) : String :=
  if r.path ≠ "" then r.path else r.name

/-- `Repository.IsShallow` (repository.go). -/
def Repository.IsShallow (r : Repository) (defaultShallow : Bool) : Bool :=
  match r.shallow with
  | some b => b
  | none => defaultShallow

/-- `Repository.GetDepth` (repository.go). -/
def Repository.GetDepth (r : Repository) (defaultDepth : Int) : Int :=
  match r.depth with
  | some d => d
  | none => defaultDepth

/-- `Repository.HasSubmodules` (repository.go). -/
def Repository.HasSubmodules (r : Repository) (defaultSubmodules : Bool) : Bool :=
  match r.submodules with
  | some b => b
  | none => defaultSubmodules

/-- `config.Project` (part_003). -/
structure Project where
  name : String
  repositories : List String
  tags : List String
deriving DecidableEq, Repr

/-- `config.Config` (pkg/config/config.go), flattened over its General /
HTTP / Git sections; fields irrelevant to the sync core (cache dir,
config path) are omitted.  Durations are opaque `Int` tick counts. -/
structure Config where
  workDir : String
  timeout : Int
  defaultBranch : String
  recurseSubmodule : Bool
  userAgent : String
  retryAttempts : Int
  retryDelay : Int
  shallowClone : Bool
  cloneDepth : Int
  repositories : List Repository
  projects : List Project
deriving DecidableEq, Repr

/-- `Config.GetRepository` (config.go): first repository with the name. -/
def Config.GetRepository (c : Config) (name : String) : Option Repository :=
  c.repositories.find? (fun r => r.name = name)

/-- `Config.GetProject` (config.go): first project with the name. -/
def Config.GetProject (c : Config) (name : String) : Option Project :=
  c.projects.find? (fun p => p.name = name)

/-- The member-resolution loop of `Config.GetRepositoriesForProject`
(config.go lines 216-223): collects each member repository in order,
failing on the first unknown name. -/
def lookupProjectRepos (c : Config) (projName : String) :
    List String → Except GoError (List Repository)
  | [] => Except.ok []
  | rn :: rest =>
    match c.GetRepository rn with
    | none => Except.error (GoError.repoNotFoundInProject rn projName)
    | some r =>
      match lookupProjectRepos c projName rest with
      | Except.error e => Except.error e
      | Except.ok rs => Except.ok (r :: rs)

/-- `Config.GetRepositoriesForProject` (config.go): resolves every member
name, failing on the first unknown one. -/
def Config.GetRepositoriesForProject (c : Config) (projectName : String) :
    Except GoError (List Repository) :=
  match c.GetProject projectName with
  | none => Except.error (GoError.projectNotFound projectName)
  | some p => lookupProjectRepos c projectName p.repositories

/-- `Config.GetRepositoriesByTag` (config.go). -/
def Config.GetRepositoriesByTag (c : Config) (tag : String) : List Repository :=
  c.repositories.filter (fun r => r.tags.contains tag)

/-- `lockfile.SubmoduleLock` (entry.go). -/
structure SubmoduleLock where
  path : String
  url : String
  resolvedSHA : String
deriving DecidableEq, Repr

/-- `lockfile.LockEntry` (entry.go). `LastSyncedAt` is an opaque clock
value threaded from the caller. -/
structure LockEntry where
  url : String
  ltype : String
  requestedRef : String
  resolvedSHA : String
  lastSyncedAt : Int
  submodules : List SubmoduleLock
deriving DecidableEq, Repr

/-- `LockEntry.IsStale` (entry.go). -/
def LockEntry.IsStale (e : LockEntry) (requestedRef : String) : Bool :=
  e.requestedRef ≠ requestedRef

/-- `lockfile.NewEntry` (part_005); `time.Now()` becomes the `now`
parameter, and the submodule list starts empty. -/
def NewEntry (url repoType requestedRef resolvedSHA : String) (now : Int) : LockEntry :=
  { url := url, ltype := repoType, requestedRef := requestedRef
    resolvedSHA := resolvedSHA, lastSyncedAt := now, submodules := [] }

/-- `lockfile.LockFile` (part_005): the Go `map[string]LockEntry` is
modelled as an association list with at most one binding per name
(insert-or-overwrite semantics below). Version/GeneratedAt/path concern
on-disk encoding and are omitted. -/
structure LockFile where
  entries : List (String × LockEntry)
deriving DecidableEq, Repr

/-- `LockFile.Get` (part_005): map lookup. -/
def LockFile.Get (lf : LockFile) (name : String) : Option LockEntry :=
  (lf.entries.find? (fun p => p.1 = name)).map (fun p => p.2)

/-- `LockFile.Update` (part_005): map insert-or-overwrite. -/
def LockFile.Update (lf : LockFile) (name : String) (e : LockEntry) : LockFile :=
  if (lf.entries.find? (fun p => p.1 = name)).isSome then
    ⟨lf.entries.map (fun p => if p.1 = name then (name, e) else p)⟩
  else
    ⟨lf.entries ++ [(name, e)]⟩

/-- `LockFile.Has` (part_005). -/
def LockFile.Has (lf : LockFile) (name : String) : Bool :=
  (lf.Get name).isSome

/-- `LockFile.Remove` (part_005): deletes the binding, reporting whether
it existed. -/
def LockFile.Remove (lf : LockFile) (name : String) : LockFile × Bool :=
  if (lf.entries.find? (fun p => p.1 = name)).isSome then
    (⟨lf.entries.filter (fun p => p.1 ≠ name)⟩, true)
  else (lf, false)

/-- `LockFile.ShouldUpdate` (part_005): true when the entry is missing or
the requested ref changed. -/
def LockFile.ShouldUpdate (lf : LockFile) (name requestedRef : String) : Bool :=
  match lf.Get name with
  | none => true
  | some e => e.requestedRef ≠ requestedRef

/-- `LockFile.GetResolvedSHA` (part_005). -/
def LockFile.GetResolvedSHA (lf : LockFile) (name : String) : Option String :=
  (lf.Get name).map (fun e => e.resolvedSHA)

/-- `downloader.Options` (factory.go). Durations are opaque ticks. -/
structure Options where
  branch : String
  tag : String
  commit : String
  depth : Int
  shallow : Bool
  submodules : Bool
  userAgent : String
  retryAttempts : Int
  retryDelay : Int
  timeout : Int
deriving DecidableEq, Repr

/-- `Options.GetEffectiveRef` (factory.go): commit > tag > branch. -/
def Options.GetEffectiveRef (o : Options) : String :=
  if o.commit ≠ "" then o.commit
  else if o.tag ≠ "" then o.tag
  else o.branch

/-- `downloader.HTTPDownloader` (factory.go). The `http.Client` carries no
observable state beyond the timeout already in `options`. -/
structure HTTPDownloader where
  options : Options
  source : String
deriving DecidableEq, Repr

/-- `downloader.NewHTTPDownloader` (factory.go): the `source` field starts
as the empty string (Go zero value). -/
def NewHTTPDownloader (opts : Options) : HTTPDownloader :=
  { options := opts, source := "" }

/-- `HTTPDownloader.Type` (factory.go). -/
def HTTPDownloader.rtype (_ : HTTPDownloader) : String := "http"

/-- The retry loop of `HTTPDownloader.Download` (factory.go lines
184-195).  `fetch a` is the outcome of the underlying `downloadFile` call
on attempt number `a` (starting at 0); `remaining` is the number of loop
iterations still allowed, `attempt` the current attempt number, `lastErr`
the Go `lastErr` variable.  Returns the number of `fetch` invocations
performed together with either the first successful digest or the final
`lastErr`.  The fixed `time.Sleep(RetryDelay)` before each retry is real
time and is not modelled. -/
def httpAttemptLoop (fetch : Nat → Except GoError String) :
    Nat → Nat → Option GoError → Nat × Except (Option GoError) String
  | 0, _, lastErr => (0, Except.error lastErr)
  | remaining + 1, attempt, _ =>
    match fetch attempt with
    | Except.ok hash => (1, Except.ok hash)
    | Except.error e =>
      let rest := httpAttemptLoop fetch remaining (attempt + 1) (some e)
      (rest.1 + 1, rest.2)

/-- `HTTPDownloader.Download` (factory.go lines 176-198).  `mkdirOk` is
the outcome of `os.MkdirAll` on the destination's parent; `fetch` is the
backend oracle for `downloadFile`.  Returns the downloader with its
`source` field set, the number of fetch attempts performed, and the
result: the digest of the first successful attempt, or the last error
wrapped with the attempt count `RetryAttempts + 1`. -/
def HTTPDownloader.Download (h : HTTPDownloader) (source : String)
    (mkdirOk : Bool) (fetch : Nat → Except GoError String) :
    HTTPDownloader × Nat × Except GoError String :=
  let h' := { h with source := source }
  if !mkdirOk then (h', 0, Except.error (GoError.mkdirFailed (GoError.msg "mkdir")))
  else
    let r := httpAttemptLoop fetch (h.options.retryAttempts + 1).toNat 0 none
    match r.2 with
    | Except.ok hash => (h', r.1, Except.ok hash)
    | Except.error lastErr =>
      (h', r.1, Except.error (GoError.downloadFailedAfter (h.options.retryAttempts + 1)
        (lastErr.getD GoError.nilError)))

/-- `downloader.GitDownloader` (part_008): options plus the mutable
`source` field. -/
structure GitDownloader where
  options : Options
  source : String
deriving DecidableEq, Repr

/-- `downloader.NewGitDownloader` (part_008). -/
def NewGitDownloader (opts : Options) : GitDownloader :=
  { options := opts, source := "" }

/-- The `downloader.Downloader` interface value produced by the factory:
a tagged union of the two backends. -/
inductive Downloader where
  | git (d : GitDownloader)
  | http (d : HTTPDownloader)
deriving DecidableEq, Repr

/-- `downloader.New` (factory.go): dispatch on the repository type
string, failing on anything but "git" and "http". -/
def New (repoType : String) (opts : Options) : Except GoError Downloader :=
  if repoType = "git" then Except.ok (Downloader.git (NewGitDownloader opts))
  else if repoType = "http" then Except.ok (Downloader.http (NewHTTPDownloader opts))
  else Except.error (GoError.unknownRepoType repoType)

/-- `downloader.NewFromRepository` (factory.go): assembles `Options` from
the repository's overrides and the configuration defaults. -/
def NewFromRepository (repo : Repository) (cfg : Config) : Except GoError Downloader :=
  New repo.rtype
    { branch := repo.branch
      tag := repo.tag
      commit := repo.commit
      depth := repo.GetDepth cfg.cloneDepth
      shallow := repo.IsShallow cfg.shallowClone
      submodules := repo.HasSubmodules cfg.recurseSubmodule
      userAgent := cfg.userAgent
      retryAttempts := cfg.retryAttempts
      retryDelay := cfg.retryDelay
      timeout := cfg.timeout }

/-- The value returned synchronously by `DownloadWithProgress` before any
channel event: both backends return `("", ch, nil)` immediately
(factory.go line 249, part_008 line 189). -/
def Downloader.downloadWithProgressImmediate (_ : Downloader) : String × Option GoError :=
  ("", none)

/-- The value returned synchronously by `UpdateWithProgress`: the git
backend returns `("", ch, nil)` (part_008 line 301); the HTTP backend
first checks its `source` field and returns the "source URL not set"
error when it is empty (factory.go lines 261-266). -/
def Downloader.updateWithProgressImmediate : Downloader → String × Option GoError
  | Downloader.git _ => ("", none)
  | Downloader.http d =>
    if d.source = "" then ("", some GoError.sourceNotSet) else ("", none)

/-- The `for update := range progressCh` loop of
`RepositoryManager.syncRepository` (part_007 lines 223-244): an event
carrying a non-nil error aborts with that error; a `complete` event
overwrites `sha` with its message; otherwise `sha` is kept.  The UI
notifications inside the loop are side effects on the progress sink and
are not part of the returned value. -/
def drainProgress : List ProgressUpdate → String → Except GoError String
  | [], sha => Except.ok sha
  | u :: rest, sha =>
    match u.error with
    | some e => Except.error e
    | none =>
      drainProgress rest (if u.phase = ProgressPhase.complete then u.message else sha)

/-- The environment of one repository's sync task: whether the local
destination already exists (`downloader.Exists`), the progress events the
task receives from the transport's channel, and the outcome of
`GetCurrentRef` on the destination. -/
structure RepoEnv where
  destExists : Bool
  updates : List ProgressUpdate
  currentRef : Except GoError String
deriving Repr

/-- `manager.RepositoryManager` (part_007).  The progress UI is modelled
only by its presence (`hasUI` ↔ `m.ui != nil`); `interactive` configures
the UI and is dropped. -/
structure Manager where
  config : Config
  lockFile : Option LockFile
  hasUI : Bool
  workDir : String
  concurrent : Int
  locked : Bool

/-- `manager.NewRepositoryManager` (part_007) before options are
applied: concurrency 4, no lock file, no UI, not locked. -/
def NewRepositoryManager (cfg : Config) : Manager :=
  { config := cfg, lockFile := none, hasUI := false
    workDir := cfg.workDir, concurrent := 4, locked := false }

/-- `manager.WithConcurrency` (part_007): only positive values override
the concurrency limit. -/
def Manager.withConcurrency (m : Manager) (n : Int) : Manager :=
  if n > 0 then { m with concurrent := n } else m

/-- `manager.WithLockFile` (part_007). -/
def Manager.withLockFile (m : Manager) (lf : LockFile) : Manager :=
  { m with lockFile := some lf }

/-- `manager.WithLocked` (part_007). -/
def Manager.withLocked (m : Manager) (locked : Bool) : Manager :=
  { m with locked := locked }

/-- `manager.Filter` (part_007). -/
structure Filter where
  names : List String
  projects : List String
  tags : List String
  all : Bool
deriving DecidableEq, Repr

/-- The `repoSet[name] = repo` insertion of `getRepositories`: the Go map
is modelled as an association list keyed by name, overwriting in place. -/
def insertRepoSet (st : List (String × Repository)) (name : String) (r : Repository) :
    List (String × Repository) :=
  if (st.find? (fun p => p.1 = name)).isSome then
    st.map (fun p => if p.1 = name then (name, r) else p)
  else st ++ [(name, r)]

/-- The `for _, name := range filter.Names` loop of `getRepositories`
(part_007 lines 114-120): fails on the first unknown name. -/
def addFilterNames (cfg : Config) :
    List String → List (String × Repository) → Except GoError (List (String × Repository))
  | [], st => Except.ok st
  | n :: rest, st =>
    match cfg.GetRepository n with
    | none => Except.error (GoError.repoNotFound n)
    | some r => addFilterNames cfg rest (insertRepoSet st n r)

/-- The `for _, projName := range filter.Projects` loop of
`getRepositories` (part_007 lines 123-131). -/
def addFilterProjects (cfg : Config) :
    List String → List (String × Repository) → Except GoError (List (String × Repository))
  | [], st => Except.ok st
  | pn :: rest, st =>
    match cfg.GetRepositoriesForProject pn with
    | Except.error e => Except.error e
    | Except.ok repos =>
      addFilterProjects cfg rest
        (repos.foldl (fun acc r => insertRepoSet acc r.name r) st)

/-- The `for _, tag := range filter.Tags` loop of `getRepositories`
(part_007 lines 134-139). -/
def addFilterTags (cfg : Config) :
    List String → List (String × Repository) → List (String × Repository)
  | [], st => st
  | t :: rest, st =>
    addFilterTags cfg rest
      ((cfg.GetRepositoriesByTag t).foldl (fun acc r => insertRepoSet acc r.name r) st)

/-- `RepositoryManager.getRepositories` (part_007 lines 106-147).  The Go
map's nondeterministic iteration order is fixed to insertion order; no
claim depends on the order of the returned list. -/
def Manager.getRepositories (m : Manager) (filter : Filter) :
    Except GoError (List Repository) :=
  if filter.all ∨ (filter.names = [] ∧ filter.projects = [] ∧ filter.tags = []) then
    Except.ok m.config.repositories
  else
    match addFilterNames m.config filter.names [] with
    | Except.error e => Except.error e
    | Except.ok st1 =>
      match addFilterProjects m.config filter.projects st1 with
      | Except.error e => Except.error e
      | Except.ok st2 =>
        Except.ok ((addFilterTags m.config filter.tags st2).map (fun p => p.2))

/-- Go `s[:8]`: defined only when the string has at least 8 characters;
`none` models the out-of-range slice panic. -/
def goSlice8 (s : String) : Option String :=
  if 8 ≤ s.length then some (s.take 8) else none

/-- A failed `OperationResult` as built throughout `syncRepository`:
name, URL, branch and tag echoed, success false, the given error. -/
def failResult (repo : Repository) (e : GoError) : OperationResult :=
  { repoName := repo.name, repoURL := repo.url, success := false
    error := some e, commitSHA := "", branch := repo.branch, tag := repo.tag }

/-- The transport portion of `syncRepository` (part_007 lines 189-257):
downloader creation, dispatch on destination existence, the progress
drain, and the `GetCurrentRef` fallback when the drain yields no SHA.
Returns the resolved reference or the error exactly as `syncRepository`
would store it in the result. -/
def Manager.transportResolve (m : Manager) (repo : Repository) (env : RepoEnv) :
    Except GoError String :=
  match NewFromRepository repo m.config with
  | Except.error e => Except.error (GoError.downloaderCreate e)
  | Except.ok dl =>
    let call :=
      if env.destExists then dl.updateWithProgressImmediate
      else dl.downloadWithProgressImmediate
    match call.2 with
    | some e => Except.error e
    | none =>
      match drainProgress env.updates call.1 with
      | Except.error e => Except.error e
      | Except.ok sha0 =>
        if sha0 = "" then
          match env.currentRef with
          | Except.ok s => Except.ok s
          | Except.error e => Except.error (GoError.getCurrentRefFailed e)
        else Except.ok sha0

/-- `RepositoryManager.syncRepository` (part_007 lines 155-282).  `none`
models a panic from one of the unguarded `[:8]` slices: in the SHA
mismatch error (line 261, always evaluated on that branch) and in the
completion message (line 277, evaluated only when the UI is present). -/
def Manager.syncRepository (m : Manager) (repo : Repository) (env : RepoEnv) :
    Option OperationResult :=
  let lockStep : Except GoError String :=
    if m.locked then
      match m.lockFile with
      | some lf =>
        match lf.GetResolvedSHA repo.name with
        | some sha => Except.ok sha
        | none => Except.error GoError.noLockEntry
      | none => Except.ok ""
    else Except.ok ""
  match lockStep with
  | Except.error e => some (failResult repo e)
  | Except.ok targetSHA =>
    match m.transportResolve repo env with
    | Except.error e => some (failResult repo e)
    | Except.ok sha =>
      if m.locked ∧ targetSHA ≠ "" ∧ sha ≠ targetSHA then
        match goSlice8 targetSHA, goSlice8 sha with
        | some t8, some s8 => some (failResult repo (GoError.shaMismatch t8 s8))
        | _, _ => none
      else if m.hasUI ∧ (goSlice8 sha).isNone then none
      else
        some { repoName := repo.name, repoURL := repo.url, success := true
               error := none, commitSHA := sha, branch := repo.branch, tag := repo.tag }

/-- The loop body of `RepositoryManager.updateLockFile` (part_007 lines
290-308): a failed result is skipped, a successful one whose repository
is still in the catalog gets a fresh entry with the requested reference
recomputed by the priority policy and the result's resolved SHA. -/
def lockUpdateStep (cfg : Config) (now : Int) (acc : LockFile) (r : OperationResult) :
    LockFile :=
  if !r.success then acc
  else
    match cfg.GetRepository r.repoName with
    | none => acc
    | some repo =>
      acc.Update r.repoName
        (NewEntry repo.url repo.rtype (repo.GetEffectiveRef cfg.defaultBranch) r.commitSHA now)

/-- `RepositoryManager.updateLockFile` (part_007 lines 285-309): returns
immediately when there is no lock file or locked mode is on; otherwise
every successful result whose repository is still in the catalog gets a
fresh entry with the requested ref recomputed by the priority policy. -/
def Manager.updateLockFile (m : Manager) (results : List OperationResult) (now : Int) :
    Option LockFile :=
  match m.lockFile with
  | none => none
  | some lf =>
    if m.locked then some lf
    else some (results.foldl (lockUpdateStep m.config now) lf)

/-- The environment of one `Sync` call: the `os.MkdirAll` outcome for the
work directory, the UI start outcome, the per-task environments indexed by
the task's slot in the resolved repository list, and the clock value used
for new lock entries. -/
structure SyncEnv where
  mkdirOk : Bool
  uiStartOk : Bool
  repoEnv : Nat → RepoEnv
  now : Int

/-- The per-repository task loop of `Sync` (operations.go lines 48-60):
slot `i` receives the result of `syncRepository` on repository `i`.
Results are stored by slot, so the model is the in-order list; `none`
propagates a task panic. -/
def runTasks (m : Manager) (env : SyncEnv) : List Repository → Nat → Option (List OperationResult)
  | [], _ => some []
  | r :: rest, i =>
    match m.syncRepository r (env.repoEnv i), runTasks m env rest (i + 1) with
    | some res, some l => some (res :: l)
    | _, _ => none

/-- `RepositoryManager.Sync` (operations.go lines 16-69).  The first
component is the call's return value (`ok none` marking a task panic that
crashes the process before any report is built); the second is the lock
store as left by the call. -/
def Manager.Sync (m : Manager) (env : SyncEnv) (filter : Filter) :
    Except GoError (Option SyncResult) × Option LockFile :=
  if !env.mkdirOk then
    (Except.error (GoError.workDirFailed (GoError.msg "mkdir")), m.lockFile)
  else
    match m.getRepositories filter with
    | Except.error e => (Except.error e, m.lockFile)
    | Except.ok repos =>
      if repos = [] then (Except.ok (some SyncResult.empty), m.lockFile)
      else if !m.hasUI ∧ !env.uiStartOk then
        (Except.error (GoError.uiStartFailed (GoError.msg "ui")), m.lockFile)
      else
        let m' := { m with hasUI := true }
        match runTasks m' env repos 0 with
        | none => (Except.ok none, m.lockFile)
        | some results =>
          (Except.ok (some (NewSyncResult results)), m'.updateLockFile results env.now)

/-! ## Claim C5: retry policy of the plain-file transport -/

theorem httpAttemptLoop_succ_error (fetch : Nat → Except GoError String)
    (n a : Nat) (le : Option GoError) (e : GoError) (he : fetch a = Except.error e) :
    httpAttemptLoop fetch (n + 1) a le =
      ((httpAttemptLoop fetch n (a + 1) (some e)).1 + 1,
       (httpAttemptLoop fetch n (a + 1) (some e)).2) := by
  simp only [httpAttemptLoop, he]

theorem httpAttemptLoop_count_le (fetch : Nat → Except GoError String) :
    ∀ (n a : Nat) (le : Option GoError), (httpAttemptLoop fetch n a le).1 ≤ n := by
  intro n
  induction n with
  | zero => intro a le; simp [httpAttemptLoop]
  | succ m ih =>
    intro a le
    simp only [httpAttemptLoop]
    cases hf : fetch a with
    | ok hsh => simp
    | error e =>
      simpa using Nat.succ_le_succ (ih (a + 1) (some e))

theorem httpAttemptLoop_first_ok (fetch : Nat → Except GoError String) :
    ∀ (k n a : Nat) (le : Option GoError) (hsh : String), k < n →
      (∀ i, i < k → ∃ e, fetch (a + i) = Except.error e) →
      fetch (a + k) = Except.ok hsh →
      httpAttemptLoop fetch n a le = (k + 1, Except.ok hsh) := by
  intro k
  induction k with
  | zero =>
    intro n a le hsh hk _ hok
    match n, hk with
    | m + 1, _ =>
      simp only [httpAttemptLoop]
      rw [show a + 0 = a from rfl] at hok
      rw [hok]
  | succ j ih =>
    intro n a le hsh hk hfail hok
    match n, hk with
    | m + 1, hk =>
      obtain ⟨e0, he0⟩ := hfail 0 (Nat.succ_pos j)
      rw [show a + 0 = a from rfl] at he0
      simp only [httpAttemptLoop, he0]
      have hrec : httpAttemptLoop fetch m (a + 1) (some e0) = (j + 1, Except.ok hsh) := by
        refine ih m (a + 1) (some e0) hsh (Nat.lt_of_succ_lt_succ hk) ?_ ?_
        · intro i hi
          obtain ⟨e, he⟩ := hfail (i + 1) (Nat.succ_lt_succ hi)
          exact ⟨e, by rw [show a + 1 + i = a + (i + 1) from by omega]; exact he⟩
        · rw [show a + 1 + j = a + (j + 1) from by omega]; exact hok
      rw [hrec]

theorem httpAttemptLoop_all_fail (fetch : Nat → Except GoError String) :
    ∀ (n a : Nat) (le : Option GoError), 0 < n →
      (∀ i, i < n → ∃ e, fetch (a + i) = Except.error e) →
      ∃ e, fetch (a + (n - 1)) = Except.error e ∧
        httpAttemptLoop fetch n a le = (n, Except.error (some e)) := by
  intro n
  induction n with
  | zero => intro a le h; exact absurd h (by omega)
  | succ m ih =>
    intro a le _ hfail
    obtain ⟨e0, he0⟩ := hfail 0 (Nat.succ_pos m)
    rw [show a + 0 = a from rfl] at he0
    cases m with
    | zero =>
      exact ⟨e0, by simpa using he0, by simp [httpAttemptLoop, he0]⟩
    | succ m' =>
      have hfail' : ∀ i, i < m' + 1 → ∃ e, fetch (a + 1 + i) = Except.error e := by
        intro i hi
        obtain ⟨e, he⟩ := hfail (i + 1) (Nat.succ_lt_succ hi)
        exact ⟨e, by rw [show a + 1 + i = a + (i + 1) from by omega]; exact he⟩
      obtain ⟨e, he, hloop⟩ := ih (a + 1) (some e0) (Nat.succ_pos m') hfail'
      refine ⟨e, ?_, ?_⟩
      · rw [show a + (m' + 1 + 1 - 1) = a + 1 + (m' + 1 - 1) from by omega]; exact he
      · rw [httpAttemptLoop_succ_error fetch (m' + 1) a le e0 he0, hloop]

theorem download_fst_eq_loop (h : HTTPDownloader) (source : String)
    (fetch : Nat → Except GoError String) :
    (h.Download source true fetch).2.1 =
      (httpAttemptLoop fetch (h.options.retryAttempts + 1).toNat 0 none).1 := by
  rcases hr : httpAttemptLoop fetch (h.options.retryAttempts + 1).toNat 0 none with ⟨n, res⟩
  cases res <;> simp [HTTPDownloader.Download, hr]

/-- Claim C5: for the HTTP transport with configured `retryAttempts = R ≥ 0`,
`Download` performs at most `R + 1` fetch attempts; the first successful
attempt returns immediately with its digest and no further attempts are
made; and when every attempt fails, `Download` returns the last observed
error wrapped with the attempt count `R + 1`.  (The fixed inter-attempt
delay is real time and is outside the model.) -/
theorem spec_C5_http_retry (h : HTTPDownloader) (source : String)
    (fetch : Nat → Except GoError String) (hR : 0 ≤ h.options.retryAttempts) :
    ((h.Download source true fetch).2.1 ≤ (h.options.retryAttempts + 1).toNat)
    ∧ (∀ k hsh, k < (h.options.retryAttempts + 1).toNat →
        (∀ i, i < k → ∃ e, fetch i = Except.error e) →
        fetch k = Except.ok hsh →
        (h.Download source true fetch).2 = (k + 1, Except.ok hsh))
    ∧ ((∀ i, i < (h.options.retryAttempts + 1).toNat → ∃ e, fetch i = Except.error e) →
        ∃ e, fetch ((h.options.retryAttempts + 1).toNat - 1) = Except.error e ∧
          (h.Download source true fetch).2 =
            ((h.options.retryAttempts + 1).toNat,
             Except.error (GoError.downloadFailedAfter (h.options.retryAttempts + 1) e))) := by
  refine ⟨?_, ?_, ?_⟩
  · rw [download_fst_eq_loop]
    exact httpAttemptLoop_count_le fetch _ 0 none
  · intro k hsh hk hfail hok
    have hloop : httpAttemptLoop fetch (h.options.retryAttempts + 1).toNat 0 none =
        (k + 1, Except.ok hsh) := by
      refine httpAttemptLoop_first_ok fetch k _ 0 none hsh hk ?_ ?_
      · intro i hi
        simpa using hfail i hi
      · simpa using hok
    simp [HTTPDownloader.Download, hloop]
  · intro hfail
    have hpos : 0 < (h.options.retryAttempts + 1).toNat := by omega
    obtain ⟨e, he, hloop⟩ := httpAttemptLoop_all_fail fetch _ 0 none hpos
      (by intro i hi; simpa using hfail i hi)
    refine ⟨e, by simpa using he, ?_⟩
    simp [HTTPDownloader.Download, hloop]

/-- Retry options used by the C5 witness: `retryAttempts = 3`. -/
def optsC5 : Options :=
  { branch := "", tag := "", commit := "", depth := 1, shallow := true
    submodules := true, userAgent := "ua", retryAttempts := 3, retryDelay := 2, timeout := 10 }

/-- A backend that fails twice and then succeeds, mirroring the spec's
retry-exhaustion scenario. -/
def fetchC5 : Nat → Except GoError String :=
  fun i => if i < 2 then Except.error (GoError.msg "HTTP 500") else Except.ok "deadbeef"

/-- Witness for C5: with `retryAttempts = 3` against a backend that fails
twice then succeeds, `Download` succeeds with exactly 3 attempts. -/
theorem spec_C5_http_retry_witness :
    ((NewHTTPDownloader optsC5).Download "http://x/f" true fetchC5).2 =
      (3, Except.ok "deadbeef") := by
  refine (spec_C5_http_retry (NewHTTPDownloader optsC5) "http://x/f" fetchC5
    (by decide)).2.1 2 "deadbeef" (by decide) ?_ rfl
  intro i hi
  exact ⟨GoError.msg "HTTP 500", by interval_cases i <;> rfl⟩

/-! ## Map semantics of the lock store -/

theorem find?_map_overwrite (l : List (String × LockEntry)) (n : String) (e : LockEntry)
    (h : (l.find? (fun p => p.1 = n)).isSome) :
    (l.map (fun p => if p.1 = n then (n, e) else p)).find? (fun p => p.1 = n) = some (n, e) := by
  induction l with
  | nil => simp at h
  | cons hd tl ih =>
    by_cases hh : hd.1 = n
    · simp [List.find?, hh]
    · rw [List.find?_cons_of_neg _ (by simpa using hh)] at h
      simpa [List.find?, hh] using ih h

theorem find?_cons_true {α : Type} (p : α → Bool) (a : α) (l : List α) (h : p a = true) :
    (a :: l).find? p = some a := by
  rw [List.find?_cons, h]

theorem find?_cons_false {α : Type} (p : α → Bool) (a : α) (l : List α) (h : p a = false) :
    (a :: l).find? p = l.find? p := by
  rw [List.find?_cons, h]

theorem find?_map_overwrite_ne (l : List (String × LockEntry)) (n m : String) (e : LockEntry)
    (hne : m ≠ n) :
    (l.map (fun p => if p.1 = n then (n, e) else p)).find? (fun p => p.1 = m) =
      l.find? (fun p => p.1 = m) := by
  induction l with
  | nil => rfl
  | cons hd tl ih =>
    simp only [List.map_cons]
    by_cases hh : hd.1 = n
    · rw [if_pos hh,
        find?_cons_false (fun p : String × LockEntry => decide (p.1 = m)) (n, e) _
          (decide_eq_false (fun h : n = m => hne h.symm)),
        find?_cons_false (fun p : String × LockEntry => decide (p.1 = m)) hd _
          (decide_eq_false (fun h : hd.1 = m => hne (hh.symm.trans h).symm))]
      exact ih
    · by_cases hm : hd.1 = m
      · rw [if_neg hh,
          find?_cons_true (fun p : String × LockEntry => decide (p.1 = m)) hd _
            (decide_eq_true hm),
          find?_cons_true (fun p : String × LockEntry => decide (p.1 = m)) hd _
            (decide_eq_true hm)]
      · rw [if_neg hh,
          find?_cons_false (fun p : String × LockEntry => decide (p.1 = m)) hd _
            (decide_eq_false hm),
          find?_cons_false (fun p : String × LockEntry => decide (p.1 = m)) hd _
            (decide_eq_false hm)]
        exact ih

theorem LockFile.get_update_self (lf : LockFile) (n : String) (e : LockEntry) :
    (lf.Update n e).Get n = some e := by
  unfold LockFile.Update LockFile.Get
  by_cases h : (lf.entries.find? (fun p => p.1 = n)).isSome
  · rw [if_pos h]
    dsimp only
    rw [find?_map_overwrite lf.entries n e h]
    rfl
  · rw [if_neg h]
    dsimp only
    rw [List.find?_append, Option.not_isSome_iff_eq_none.mp h]
    simp [List.find?]

theorem LockFile.get_update_ne (lf : LockFile) (n m : String) (e : LockEntry) (hne : m ≠ n) :
    (lf.Update n e).Get m = lf.Get m := by
  unfold LockFile.Update LockFile.Get
  by_cases h : (lf.entries.find? (fun p => p.1 = n)).isSome
  · rw [if_pos h]
    dsimp only
    rw [find?_map_overwrite_ne lf.entries n m e hne]
  · rw [if_neg h]
    dsimp only
    rw [List.find?_append]
    have hsing : List.find? (fun p : String × LockEntry => p.1 = m) [(n, e)] = none := by
      rw [find?_cons_false (fun p : String × LockEntry => decide (p.1 = m)) (n, e) _
        (decide_eq_false (fun hc : n = m => hne hc.symm))]
      rfl
    rw [hsing, Option.or_none]

/-! ## Claim C4: idempotent re-sync (code bug for the HTTP transport) -/

/-- Claim C4 evaluated on the code: re-syncing a repository of the
plain-file (HTTP) kind whose destination already exists always fails.
`syncRepository` builds a fresh downloader via `NewFromRepository`, whose
`source` field is the empty string, and the existing-destination branch
calls `UpdateWithProgress`, which rejects an empty source with
"source URL not set".  This contradicts the claimed idempotence of `sync`
for up-to-date repositories (spec §8), for any environment whatsoever —
even one whose transport would succeed. -/
theorem spec_C4_http_second_sync_fails (m : Manager) (repo : Repository) (env : RepoEnv)
    (hty : repo.rtype = "http") (hex : env.destExists = true) (hl : m.locked = false) :
    m.syncRepository repo env = some (failResult repo GoError.sourceNotSet) := by
  simp [Manager.syncRepository, Manager.transportResolve, NewFromRepository, New, hty, hex, hl,
    Downloader.updateWithProgressImmediate, NewHTTPDownloader]

/-- An HTTP repository fixture. -/
def repoHTTP : Repository :=
  { name := "artifact", url := "https://example.com/a.tar.gz", rtype := "http", path := ""
    branch := "", tag := "", commit := "", shallow := none, depth := none, submodules := none
    tags := [] }

/-- A catalog holding only `repoHTTP`. -/
def cfgHTTP : Config :=
  { workDir := "/w", timeout := 10, defaultBranch := "main", recurseSubmodule := true
    userAgent := "ua", retryAttempts := 3, retryDelay := 2, shallowClone := true, cloneDepth := 1
    repositories := [repoHTTP], projects := [] }

/-- A task environment where the destination exists and every transport
interaction would succeed. -/
def envHTTPExists : RepoEnv :=
  { destExists := true, updates := [], currentRef := Except.ok "0123456789abcdef" }

/-- Witness for C4: the concrete second sync of an up-to-date HTTP
repository fails with "source URL not set". -/
theorem spec_C4_http_second_sync_fails_witness :
    (NewRepositoryManager cfgHTTP).syncRepository repoHTTP envHTTPExists =
      some (failResult repoHTTP GoError.sourceNotSet) :=
  spec_C4_http_second_sync_fails (NewRepositoryManager cfgHTTP) repoHTTP envHTTPExists
    rfl rfl rfl

/-! ## Claim C3: unknown names fail the whole call -/

theorem addFilterNames_error (cfg : Config) :
    ∀ (names : List String) (st : List (String × Repository)),
      (∃ n ∈ names, cfg.GetRepository n = none) →
      ∃ e, addFilterNames cfg names st = Except.error e := by
  intro names
  induction names with
  | nil => intro st h; simp at h
  | cons n0 rest ih =>
    intro st h
    rcases hg : cfg.GetRepository n0 with _ | r
    · exact ⟨GoError.repoNotFound n0, by simp [addFilterNames, hg]⟩
    · obtain ⟨n, hn, hmiss⟩ := h
      rcases List.mem_cons.mp hn with rfl | hn'
      · simp [hg] at hmiss
      · obtain ⟨e, he⟩ := ih (insertRepoSet st n0 r) ⟨n, hn', hmiss⟩
        exact ⟨e, by simp [addFilterNames, hg, he]⟩

/-- Claim C3: a name-based filter containing an unknown name fails the
whole `Sync` call: an error is returned, no report (hence no
per-repository result) is produced, and the lock store is unchanged. -/
theorem spec_C3_unknown_name (m : Manager) (env : SyncEnv) (filter : Filter) (n : String)
    (hall : filter.all = false) (hn : n ∈ filter.names)
    (hmiss : m.config.GetRepository n = none) :
    (∃ e, (m.Sync env filter).1 = Except.error e) ∧ (m.Sync env filter).2 = m.lockFile := by
  have hne : filter.names ≠ [] := by intro h; rw [h] at hn; cases hn
  by_cases hmk : env.mkdirOk
  · have hsel : (filter.all ∨ (filter.names = [] ∧ filter.projects = [] ∧ filter.tags = []))
        = False := by
      simp [hall, hne]
    obtain ⟨e, he⟩ := addFilterNames_error m.config filter.names [] ⟨n, hn, hmiss⟩
    have hrepos : m.getRepositories filter = Except.error e := by
      simp [Manager.getRepositories, hsel, he]
    constructor
    · exact ⟨e, by simp [Manager.Sync, hmk, hrepos]⟩
    · simp [Manager.Sync, hmk, hrepos]
  · constructor
    · exact ⟨GoError.workDirFailed (GoError.msg "mkdir"), by simp [Manager.Sync, hmk]⟩
    · simp [Manager.Sync, hmk]

/-- A filter naming a repository absent from `cfgHTTP`. -/
def filterUnknown : Filter :=
  { names := ["artifact", "ghost"], projects := [], tags := [], all := false }

/-- A `Sync` environment where every external interaction succeeds. -/
def envSyncOk : SyncEnv :=
  { mkdirOk := true, uiStartOk := true
    repoEnv := fun _ => { destExists := false, updates := [], currentRef := Except.ok "0123456789abcdef" }
    now := 7 }

/-- Witness for C3 at a concrete manager, filter and environment. -/
theorem spec_C3_unknown_name_witness :
    (∃ e, ((NewRepositoryManager cfgHTTP).Sync envSyncOk filterUnknown).1 = Except.error e)
    ∧ ((NewRepositoryManager cfgHTTP).Sync envSyncOk filterUnknown).2 =
        (NewRepositoryManager cfgHTTP).lockFile :=
  spec_C3_unknown_name (NewRepositoryManager cfgHTTP) envSyncOk filterUnknown "ghost"
    rfl (by simp [filterUnknown]) (by decide)

/-! ## Claim C8: empty repository set -/

/-- Claim C8: when the filter resolves to an empty repository set, `Sync`
returns the zero report (total, successes and failures all 0) and leaves
the lock store exactly as it was (the model also never consults it on
this path). -/
theorem spec_C8_empty_set (m : Manager) (env : SyncEnv) (filter : Filter)
    (hmk : env.mkdirOk = true)
    (hempty : m.getRepositories filter = Except.ok []) :
    m.Sync env filter = (Except.ok (some SyncResult.empty), m.lockFile)
    ∧ SyncResult.empty.totalRepos = 0
    ∧ SyncResult.empty.successCount = 0
    ∧ SyncResult.empty.failureCount = 0 := by
  refine ⟨?_, rfl, rfl, rfl⟩
  simp [Manager.Sync, hmk, hempty]

/-- A filter selecting by a tag no repository carries. -/
def filterNoTag : Filter :=
  { names := [], projects := [], tags := ["absent-tag"], all := false }

/-- Witness for C8: the concrete tag-based filter resolving to nothing. -/
theorem spec_C8_empty_set_witness :
    (NewRepositoryManager cfgHTTP).Sync envSyncOk filterNoTag =
      (Except.ok (some SyncResult.empty), none) :=
  ((spec_C8_empty_set (NewRepositoryManager cfgHTTP) envSyncOk filterNoTag rfl rfl).1)

/-! ## Claims C1 and C10: locked mode and the unguarded slicings -/

theorem updateLockFile_locked (m : Manager) (results : List OperationResult) (now : Int)
    (hl : m.locked = true) : m.updateLockFile results now = m.lockFile := by
  unfold Manager.updateLockFile
  cases hlf : m.lockFile <;> simp [hlf, hl]

theorem sync_lockFile_cases (m : Manager) (env : SyncEnv) (filter : Filter) :
    (m.Sync env filter).2 = m.lockFile ∨
    ∃ results, (m.Sync env filter).2 =
      ({ m with hasUI := true }).updateLockFile results env.now := by
  unfold Manager.Sync
  split
  · exact Or.inl rfl
  · split
    · exact Or.inl rfl
    · split
      · exact Or.inl rfl
      · split
        · exact Or.inl rfl
        · dsimp only
          split
          · exact Or.inl rfl
          · exact Or.inr ⟨_, rfl⟩

/-- A git repository fixture. -/
def repoGit : Repository :=
  { name := "repo-a", url := "git@example.com:a.git", rtype := "git", path := ""
    branch := "", tag := "", commit := "", shallow := none, depth := none, submodules := none
    tags := [] }

/-- A catalog holding only `repoGit`. -/
def cfgGit : Config :=
  { workDir := "/w", timeout := 10, defaultBranch := "main", recurseSubmodule := true
    userAgent := "ua", retryAttempts := 3, retryDelay := 2, shallowClone := true, cloneDepth := 1
    repositories := [repoGit], projects := [] }

/-- A task environment whose transport resolves to "cdcdcdcdcd". -/
def envGitOk : RepoEnv :=
  { destExists := false
    updates := [{ phase := ProgressPhase.complete, bytesTotal := 0, bytesDone := 0
                  message := "cdcdcdcdcd", error := none }]
    currentRef := Except.ok "ffffffffff" }

/-- A lock entry whose stored resolved reference is the empty string. -/
def entryEmptySha : LockEntry :=
  { url := "git@example.com:a.git", ltype := "git", requestedRef := "main"
    resolvedSHA := "", lastSyncedAt := 0, submodules := [] }

/-- A locked manager whose lock store maps `repo-a` to `entryEmptySha`. -/
def mgrLockedEmptySha : Manager :=
  { config := cfgGit, lockFile := some ⟨[("repo-a", entryEmptySha)]⟩, hasUI := true
    workDir := "/w", concurrent := 4, locked := true }

/-- Counterexample to C1 as stated: in locked mode a lock entry for
`repo-a` exists (with resolved reference `""`), the transport succeeds
and resolves to `"cdcdcdcdcd" ≠ ""`, yet the task succeeds instead of
failing with a mismatch error — the code's mismatch check is guarded by
`targetSHA != ""` and is skipped for an empty stored reference. -/
theorem spec_C1_counterexample :
    mgrLockedEmptySha.locked = true
    ∧ (mgrLockedEmptySha.lockFile.bind (fun lf => lf.GetResolvedSHA "repo-a")) = some ""
    ∧ mgrLockedEmptySha.transportResolve repoGit envGitOk = Except.ok "cdcdcdcdcd"
    ∧ ("cdcdcdcdcd" : String) ≠ ""
    ∧ (mgrLockedEmptySha.syncRepository repoGit envGitOk).map (fun r => r.success) = some true := by
  refine ⟨rfl, rfl, rfl, by decide, rfl⟩

/-- Claim C1 (amended): in locked mode with a lock store present,
(1) a missing entry fails the task with the no-lock-entry error;
(2) when the entry's stored resolved reference is non-empty and the
transport succeeds with a different reference (both at least 8 characters
long, else the task panics — claim C10), the task fails with the mismatch
error even though the transport succeeded; and
(3) a locked `Sync` call never writes the lock store. -/
theorem spec_C1_locked_mode (m : Manager) (lf : LockFile) (repo : Repository) (env : RepoEnv)
    (hl : m.locked = true) (hlf : m.lockFile = some lf) :
    (lf.GetResolvedSHA repo.name = none →
      m.syncRepository repo env = some (failResult repo GoError.noLockEntry))
    ∧ (∀ t s, lf.GetResolvedSHA repo.name = some t → t ≠ "" →
        m.transportResolve repo env = Except.ok s → s ≠ t →
        8 ≤ t.length → 8 ≤ s.length →
        m.syncRepository repo env =
          some (failResult repo (GoError.shaMismatch (t.take 8) (s.take 8))))
    ∧ (∀ (env' : SyncEnv) (filter : Filter), (m.Sync env' filter).2 = m.lockFile) := by
  refine ⟨?_, ?_, ?_⟩
  · intro hget
    simp [Manager.syncRepository, hl, hlf, hget]
  · intro t s hget htne htr hst h8t h8s
    simp [Manager.syncRepository, hl, hlf, hget, htr, htne, hst, goSlice8, h8t, h8s]
  · intro env' filter
    rcases sync_lockFile_cases m env' filter with h | ⟨results, h⟩
    · exact h
    · rw [h, updateLockFile_locked _ results env'.now (by simpa using hl)]

/-- A locked manager with an empty lock store. -/
def mgrLockedNoEntry : Manager :=
  { config := cfgGit, lockFile := some ⟨[]⟩, hasUI := true
    workDir := "/w", concurrent := 4, locked := true }

/-- Witness for C1: the no-lock-entry branch at a concrete input. -/
theorem spec_C1_locked_mode_witness :
    mgrLockedNoEntry.syncRepository repoGit envGitOk =
      some (failResult repoGit GoError.noLockEntry) :=
  (spec_C1_locked_mode mgrLockedNoEntry ⟨[]⟩ repoGit envGitOk rfl rfl).1 rfl

/-- A lock entry whose stored resolved reference is two characters long. -/
def entryShortSha : LockEntry :=
  { url := "git@example.com:a.git", ltype := "git", requestedRef := "main"
    resolvedSHA := "ab", lastSyncedAt := 0, submodules := [] }

/-- A locked manager whose lock store maps `repo-a` to `entryShortSha`. -/
def mgrLockedShortSha : Manager :=
  { config := cfgGit, lockFile := some ⟨[("repo-a", entryShortSha)]⟩, hasUI := true
    workDir := "/w", concurrent := 4, locked := true }

/-- Counterexample to C10 as stated: with a lock entry whose stored
resolved reference is `"ab"` (2 characters) and a transport resolving to
`"cdcdcdcdcd"`, the mismatch branch is reached and the unguarded
`targetSHA[:8]` slice is out of bounds: the task panics (`none`), so the
claim's "never panics ... in particular for every lock entry whose stored
resolved reference is shorter than 8 characters" is false. -/
theorem spec_C10_counterexample :
    (mgrLockedShortSha.lockFile.bind (fun lf => lf.GetResolvedSHA "repo-a")) = some "ab"
    ∧ mgrLockedShortSha.transportResolve repoGit envGitOk = Except.ok "cdcdcdcdcd"
    ∧ mgrLockedShortSha.syncRepository repoGit envGitOk = none := by
  refine ⟨rfl, rfl, rfl⟩

/-- Claim C10 (amended): the task never panics provided every string that
can reach an unguarded `[:8]` slice has length at least 8 — that is, the
transport-resolved reference is at least 8 characters whenever it is
produced, and in locked mode every stored resolved reference is either
empty (mismatch check skipped) or at least 8 characters.  For shorter
references the slicings are out of bounds and the task panics, as the
counterexample shows. -/
theorem spec_C10_no_panic (m : Manager) (repo : Repository) (env : RepoEnv)
    (hres : ∀ s, m.transportResolve repo env = Except.ok s → 8 ≤ s.length)
    (hlock : ∀ lf t, m.lockFile = some lf → lf.GetResolvedSHA repo.name = some t →
      t = "" ∨ 8 ≤ t.length) :
    (m.syncRepository repo env).isSome = true := by
  rcases htr : m.transportResolve repo env with e | s
  · by_cases hl : m.locked
    · rcases hlf : m.lockFile with _ | lf
      · simp [Manager.syncRepository, hl, hlf, htr]
      · rcases hget : lf.GetResolvedSHA repo.name with _ | t
        · simp [Manager.syncRepository, hl, hlf, hget]
        · simp [Manager.syncRepository, hl, hlf, hget, htr]
    · simp [Manager.syncRepository, hl, htr]
  · have h8s : 8 ≤ s.length := hres s htr
    have hslice : goSlice8 s = some (s.take 8) := by simp [goSlice8, h8s]
    by_cases hl : m.locked
    · rcases hlf : m.lockFile with _ | lf
      · simp [Manager.syncRepository, hl, hlf, htr, hslice]
      · rcases hget : lf.GetResolvedSHA repo.name with _ | t
        · simp [Manager.syncRepository, hl, hlf, hget]
        · rcases hlock lf t hlf hget with rfl | h8t
          · simp [Manager.syncRepository, hl, hlf, hget, htr, hslice]
          · have htne : t ≠ "" := by
              intro h
              rw [h] at h8t
              simp at h8t
            have htslice : goSlice8 t = some (t.take 8) := by simp [goSlice8, h8t]
            by_cases hst : s = t
            · simp [Manager.syncRepository, hl, hlf, hget, htr, hst, hslice, htslice]
            · simp [Manager.syncRepository, hl, hlf, hget, htr, htne, hst, hslice, htslice]
    · simp [Manager.syncRepository, hl, htr, hslice]

/-- Witness for the amended C10: a concrete unlocked sync with a 10-char
resolved reference completes without panic. -/
theorem spec_C10_no_panic_witness :
    ((NewRepositoryManager cfgGit).syncRepository repoGit envGitOk).isSome = true := by
  refine spec_C10_no_panic (NewRepositoryManager cfgGit) repoGit envGitOk ?_ ?_
  · intro s hs
    rw [show (NewRepositoryManager cfgGit).transportResolve repoGit envGitOk =
        Except.ok "cdcdcdcdcd" from rfl] at hs
    cases hs
    decide
  · intro lf t hlf _
    exact Option.noConfusion hlf

/-! ## Claim C2: lock store update after a non-locked Sync -/

theorem lockUpdateStep_get_ne (cfg : Config) (now : Int) (acc : LockFile)
    (r : OperationResult) (n : String) (hne : r.repoName ≠ n) :
    (lockUpdateStep cfg now acc r).Get n = acc.Get n := by
  unfold lockUpdateStep
  split
  · rfl
  · split
    · rfl
    · exact LockFile.get_update_ne acc r.repoName n _ (Ne.symm hne)

theorem lockUpdateStep_get_self_success (cfg : Config) (now : Int) (acc : LockFile)
    (r : OperationResult) (repo : Repository) (hs : r.success = true)
    (hrepo : cfg.GetRepository r.repoName = some repo) :
    (lockUpdateStep cfg now acc r).Get r.repoName =
      some (NewEntry repo.url repo.rtype (repo.GetEffectiveRef cfg.defaultBranch)
        r.commitSHA now) := by
  simp only [lockUpdateStep, hs, Bool.not_true, Bool.false_eq_true, if_false, hrepo]
  exact LockFile.get_update_self acc r.repoName _

theorem lockUpdateStep_failure (cfg : Config) (now : Int) (acc : LockFile)
    (r : OperationResult) (hs : r.success = false) :
    lockUpdateStep cfg now acc r = acc := by
  simp [lockUpdateStep, hs]

theorem lockFold_get_of_not_mem (cfg : Config) (now : Int) :
    ∀ (results : List OperationResult) (lf : LockFile) (n : String),
      (∀ r ∈ results, r.repoName ≠ n) →
      (results.foldl (lockUpdateStep cfg now) lf).Get n = lf.Get n := by
  intro results
  induction results with
  | nil => intro lf n _; rfl
  | cons r0 rest ih =>
    intro lf n h
    rw [List.foldl_cons, ih _ n (fun r hr => h r (List.mem_cons_of_mem _ hr))]
    exact lockUpdateStep_get_ne cfg now lf r0 n (h r0 (List.mem_cons_self _ _))

theorem lockFold_get_mem (cfg : Config) (now : Int) :
    ∀ (results : List OperationResult) (lf : LockFile) (r : OperationResult),
      (results.map (fun x => x.repoName)).Nodup → r ∈ results →
      ((r.success = true → ∀ repo, cfg.GetRepository r.repoName = some repo →
          (results.foldl (lockUpdateStep cfg now) lf).Get r.repoName =
            some (NewEntry repo.url repo.rtype (repo.GetEffectiveRef cfg.defaultBranch)
              r.commitSHA now))
       ∧ (r.success = false →
          (results.foldl (lockUpdateStep cfg now) lf).Get r.repoName = lf.Get r.repoName)) := by
  intro results
  induction results with
  | nil => intro lf r _ hr; cases hr
  | cons r0 rest ih =>
    intro lf r hnodup hr
    rw [List.map_cons, List.nodup_cons] at hnodup
    obtain ⟨hnotin, hnodup'⟩ := hnodup
    rcases List.mem_cons.mp hr with rfl | hr'
    · have hrest : ∀ x ∈ rest, x.repoName ≠ r.repoName := by
        intro x hx h
        exact hnotin (h ▸ List.mem_map_of_mem _ hx)
      constructor
      · intro hs repo hrepo
        rw [List.foldl_cons, lockFold_get_of_not_mem cfg now rest _ _ hrest]
        exact lockUpdateStep_get_self_success cfg now lf r repo hs hrepo
      · intro hs
        rw [List.foldl_cons, lockFold_get_of_not_mem cfg now rest _ _ hrest,
          lockUpdateStep_failure cfg now lf r hs]
    · have hne : r0.repoName ≠ r.repoName := by
        intro h
        exact hnotin (h.symm ▸ List.mem_map_of_mem _ hr')
      have hih := ih (lockUpdateStep cfg now lf r0) r hnodup' hr'
      constructor
      · intro hs repo hrepo
        rw [List.foldl_cons]
        exact hih.1 hs repo hrepo
      · intro hs
        rw [List.foldl_cons, hih.2 hs]
        exact lockUpdateStep_get_ne cfg now lf r0 r.repoName hne

theorem getRepository_of_mem_nodup (cfg : Config)
    (hnodup : (cfg.repositories.map (fun r => r.name)).Nodup) :
    ∀ r ∈ cfg.repositories, cfg.GetRepository r.name = some r := by
  unfold Config.GetRepository
  have aux : ∀ (l : List Repository), (l.map (fun r => r.name)).Nodup →
      ∀ r ∈ l, l.find? (fun x => x.name = r.name) = some r := by
    intro l
    induction l with
    | nil => intro _ r hr; cases hr
    | cons a tl ih =>
      intro hnd r hr
      rw [List.map_cons, List.nodup_cons] at hnd
      obtain ⟨hna, hnd'⟩ := hnd
      rcases List.mem_cons.mp hr with rfl | hr'
      · exact find?_cons_true _ _ _ (decide_eq_true rfl)
      · have hne : ¬ (a.name = r.name) := by
          intro h
          exact hna (h ▸ List.mem_map_of_mem _ hr')
        rw [find?_cons_false (fun x : Repository => decide (x.name = r.name)) a _
          (decide_eq_false hne)]
        exact ih hnd' r hr'
  exact aux cfg.repositories hnodup

theorem getRepository_name (cfg : Config) (n : String) (r : Repository)
    (h : cfg.GetRepository n = some r) : r.name = n := by
  unfold Config.GetRepository at h
  have := List.find?_some h
  simpa using this

/-- Invariant of the `repoSet` association list built by
`getRepositories`: keys are distinct, each value's name is its key, and
each value is the catalog repository found under that key. -/
def GoodSet (cfg : Config) (st : List (String × Repository)) : Prop :=
  (st.map (fun p => p.1)).Nodup ∧
  ∀ p ∈ st, p.2.name = p.1 ∧ cfg.GetRepository p.1 = some p.2

theorem insertRepoSet_good (cfg : Config) (st : List (String × Repository))
    (name : String) (r : Repository) (hg : GoodSet cfg st)
    (hr : cfg.GetRepository name = some r) :
    GoodSet cfg (insertRepoSet st name r) := by
  obtain ⟨hnd, hmem⟩ := hg
  unfold insertRepoSet
  by_cases h : (st.find? (fun p => p.1 = name)).isSome
  · rw [if_pos h]
    constructor
    · have hkeys : (st.map (fun p => if p.1 = name then (name, r) else p)).map (fun p => p.1)
          = st.map (fun p => p.1) := by
        rw [List.map_map]
        apply List.map_congr_left
        intro p _
        by_cases hp : p.1 = name
        · simp [hp]
        · simp [hp]
      rw [hkeys]
      exact hnd
    · intro q hq
      rw [List.mem_map] at hq
      obtain ⟨p, hp, hq⟩ := hq
      by_cases hpn : p.1 = name
      · rw [if_pos hpn] at hq
        subst hq
        exact ⟨getRepository_name cfg name r hr, hr⟩
      · rw [if_neg hpn] at hq
        subst hq
        exact hmem p hp
  · rw [if_neg h]
    have hnotin : name ∉ st.map (fun p => p.1) := by
      intro hin
      rw [List.mem_map] at hin
      obtain ⟨p, hp, hpn⟩ := hin
      have := List.find?_eq_none.mp (Option.not_isSome_iff_eq_none.mp h) p hp
      simp [hpn] at this
    constructor
    · rw [List.map_append]
      refine List.Nodup.append hnd (List.nodup_singleton _) ?_
      intro x hx hx2
      rw [List.map_singleton, List.mem_singleton] at hx2
      subst hx2
      exact hnotin hx
    · intro q hq
      rcases List.mem_append.mp hq with hq | hq
      · exact hmem q hq
      · rw [List.mem_singleton] at hq
        subst hq
        exact ⟨getRepository_name cfg name r hr, hr⟩

theorem foldl_insert_good (cfg : Config) :
    ∀ (repos : List Repository) (st : List (String × Repository)),
      GoodSet cfg st → (∀ r ∈ repos, cfg.GetRepository r.name = some r) →
      GoodSet cfg (repos.foldl (fun acc r => insertRepoSet acc r.name r) st) := by
  intro repos
  induction repos with
  | nil => intro st hg _; exact hg
  | cons r0 rest ih =>
    intro st hg hall
    rw [List.foldl_cons]
    exact ih _ (insertRepoSet_good cfg st r0.name r0 hg (hall r0 (List.mem_cons_self _ _)))
      (fun r hr => hall r (List.mem_cons_of_mem _ hr))

theorem addFilterNames_good (cfg : Config) :
    ∀ (names : List String) (st st' : List (String × Repository)),
      GoodSet cfg st → addFilterNames cfg names st = Except.ok st' → GoodSet cfg st' := by
  intro names
  induction names with
  | nil =>
    intro st st' hg h
    cases h
    exact hg
  | cons n rest ih =>
    intro st st' hg h
    unfold addFilterNames at h
    rcases hn : cfg.GetRepository n with _ | r
    · rw [hn] at h; cases h
    · rw [hn] at h
      exact ih _ st' (insertRepoSet_good cfg st n r hg hn) h

theorem lookupProjectRepos_good (cfg : Config) (pn : String) :
    ∀ (names : List String) (repos : List Repository),
      lookupProjectRepos cfg pn names = Except.ok repos →
      ∀ r ∈ repos, cfg.GetRepository r.name = some r := by
  intro names
  induction names with
  | nil =>
    intro repos h r hr
    cases h
    cases hr
  | cons rn rest ih =>
    intro repos h r hr
    unfold lookupProjectRepos at h
    rcases hg : cfg.GetRepository rn with _ | r0
    · rw [hg] at h; cases h
    · rw [hg] at h
      rcases hrec : lookupProjectRepos cfg pn rest with e | rs
      · rw [hrec] at h; cases h
      · rw [hrec] at h
        cases h
        rcases List.mem_cons.mp hr with rfl | hr'
        · rw [getRepository_name cfg rn r hg]
          exact hg
        · exact ih rs hrec r hr'

theorem addFilterProjects_good (cfg : Config) :
    ∀ (projs : List String) (st st' : List (String × Repository)),
      GoodSet cfg st → addFilterProjects cfg projs st = Except.ok st' → GoodSet cfg st' := by
  intro projs
  induction projs with
  | nil =>
    intro st st' hg h
    cases h
    exact hg
  | cons pn rest ih =>
    intro st st' hg h
    unfold addFilterProjects at h
    rcases hp : cfg.GetRepositoriesForProject pn with e | repos
    · rw [hp] at h; cases h
    · rw [hp] at h
      have hall : ∀ r ∈ repos, cfg.GetRepository r.name = some r := by
        unfold Config.GetRepositoriesForProject at hp
        rcases hproj : cfg.GetProject pn with _ | p
        · rw [hproj] at hp; cases hp
        · rw [hproj] at hp
          exact lookupProjectRepos_good cfg pn p.repositories repos hp
      exact ih _ st' (foldl_insert_good cfg repos st hg hall) h

theorem addFilterTags_good (cfg : Config)
    (hnodup : (cfg.repositories.map (fun r => r.name)).Nodup) :
    ∀ (tags : List String) (st : List (String × Repository)),
      GoodSet cfg st → GoodSet cfg (addFilterTags cfg tags st) := by
  intro tags
  induction tags with
  | nil => intro st hg; exact hg
  | cons t rest ih =>
    intro st hg
    unfold addFilterTags
    apply ih
    apply foldl_insert_good cfg _ st hg
    intro r hr
    have hr' : r ∈ cfg.repositories := by
      unfold Config.GetRepositoriesByTag at hr
      exact List.mem_of_mem_filter hr
    exact getRepository_of_mem_nodup cfg hnodup r hr'

theorem getRepositories_good (m : Manager) (filter : Filter) (repos : List Repository)
    (hnodup : (m.config.repositories.map (fun r => r.name)).Nodup)
    (h : m.getRepositories filter = Except.ok repos) :
    (repos.map (fun r => r.name)).Nodup ∧
    ∀ r ∈ repos, m.config.GetRepository r.name = some r := by
  unfold Manager.getRepositories at h
  split at h
  · cases h
    exact ⟨hnodup, getRepository_of_mem_nodup m.config hnodup⟩
  · rcases h1 : addFilterNames m.config filter.names [] with e | st1
    · rw [h1] at h; cases h
    · rw [h1] at h
      dsimp only at h
      rcases h2 : addFilterProjects m.config filter.projects st1 with e | st2
      · rw [h2] at h; cases h
      · rw [h2] at h
        dsimp only at h
        cases h
        have hg0 : GoodSet m.config [] := ⟨List.nodup_nil, by intro p hp; cases hp⟩
        have hg1 := addFilterNames_good m.config filter.names [] st1 hg0 h1
        have hg2 := addFilterProjects_good m.config filter.projects st1 st2 hg1 h2
        obtain ⟨hnd, hmem⟩ := addFilterTags_good m.config hnodup filter.tags st2 hg2
        constructor
        · have hkeys : ((addFilterTags m.config filter.tags st2).map (fun p => p.2)).map
              (fun r => r.name) = (addFilterTags m.config filter.tags st2).map (fun p => p.1) := by
            rw [List.map_map]
            apply List.map_congr_left
            intro p hp
            exact (hmem p hp).1
          rw [hkeys]
          exact hnd
        · intro r hr
          rw [List.mem_map] at hr
          obtain ⟨p, hp, hpr⟩ := hr
          obtain ⟨hname, hget⟩ := hmem p hp
          subst hpr
          rw [hname]
          exact hget

theorem runTasks_inv (m : Manager) (env : SyncEnv) :
    ∀ (repos : List Repository) (i : Nat) (results : List OperationResult),
      runTasks m env repos i = some results →
      results.length = repos.length ∧
      ∀ (j : Nat) (r : OperationResult), results[j]? = some r →
        ∃ repo, repos[j]? = some repo ∧
          m.syncRepository repo (env.repoEnv (i + j)) = some r := by
  intro repos
  induction repos with
  | nil =>
    intro i results h
    cases h
    exact ⟨rfl, by intro j r hr; simp at hr⟩
  | cons r0 rest ih =>
    intro i results h
    unfold runTasks at h
    rcases hs : m.syncRepository r0 (env.repoEnv i) with _ | res
    · rw [hs] at h; cases h
    · rw [hs] at h
      rcases hrec : runTasks m env rest (i + 1) with _ | l
      · rw [hrec] at h; cases h
      · rw [hrec] at h
        dsimp only at h
        cases h
        obtain ⟨hlen, hget⟩ := ih (i + 1) l hrec
        refine ⟨by simpa using hlen, ?_⟩
        intro j r hr
        cases j with
        | zero =>
          rw [List.getElem?_cons_zero, Option.some.injEq] at hr
          subst hr
          exact ⟨r0, List.getElem?_cons_zero, by rw [Nat.add_zero]; exact hs⟩
        | succ j' =>
          rw [List.getElem?_cons_succ] at hr
          obtain ⟨repo, hrepo, hsync⟩ := hget j' r hr
          exact ⟨repo, by rw [List.getElem?_cons_succ]; exact hrepo,
            by rw [show i + (j' + 1) = i + 1 + j' from by omega]; exact hsync⟩

theorem syncRepository_some_shape (m : Manager) (repo : Repository) (env : RepoEnv)
    (r : OperationResult) (h : m.syncRepository repo env = some r) :
    r.repoName = repo.name ∧
    (r.success = true → m.transportResolve repo env = Except.ok r.commitSHA) := by
  unfold Manager.syncRepository at h
  dsimp only at h
  split at h
  · cases h
    exact ⟨rfl, by intro hs; simp [failResult] at hs⟩
  · split at h
    · cases h
      exact ⟨rfl, by intro hs; simp [failResult] at hs⟩
    · rename_i sha htr
      split at h
      · split at h
        · cases h
          exact ⟨rfl, by intro hs; simp [failResult] at hs⟩
        · cases h
      · split at h
        · cases h
        · cases h
          exact ⟨rfl, fun _ => htr⟩

theorem sync_ok_inversion (m : Manager) (env : SyncEnv) (filter : Filter)
    (sr : SyncResult) (olf : Option LockFile)
    (h : m.Sync env filter = (Except.ok (some sr), olf)) :
    (sr = SyncResult.empty ∧ olf = m.lockFile ∧ m.getRepositories filter = Except.ok []) ∨
    (∃ repos results, m.getRepositories filter = Except.ok repos ∧
      runTasks { m with hasUI := true } env repos 0 = some results ∧
      sr = NewSyncResult results ∧
      olf = ({ m with hasUI := true }).updateLockFile results env.now) := by
  unfold Manager.Sync at h
  split at h
  · exact absurd h (by simp)
  · split at h
    · exact absurd h (by simp)
    · rename_i repos heq
      split at h
      · rename_i hempty
        left
        simp only [Prod.mk.injEq, Except.ok.injEq, Option.some.injEq] at h
        exact ⟨h.1.symm, h.2.symm, hempty ▸ heq⟩
      · split at h
        · exact absurd h (by simp)
        · dsimp only at h
          split at h
          · exact absurd h (by simp)
          · rename_i results hrt
            right
            simp only [Prod.mk.injEq, Except.ok.injEq, Option.some.injEq] at h
            exact ⟨repos, results, heq, hrt, h.1.symm, h.2.symm⟩

/-- Claim C2: after a non-locked `Sync` call completes with report `sr`
and lock store `lf'`, every successful result's entry holds the found
repository's source URL, transport kind, the requested reference computed
by the commit > tag > branch > default-branch policy, and the resolved
reference returned by the transport (the result's `commitSHA`, which the
transport produced); every failed result's entry is exactly as before.
The catalog's repository names are assumed unique, as enforced by
`ValidateConfig` on every loaded configuration. -/
theorem spec_C2_lock_updates (m : Manager) (lf : LockFile) (env : SyncEnv) (filter : Filter)
    (repos : List Repository) (sr : SyncResult) (lf' : LockFile)
    (hnodup : (m.config.repositories.map (fun r => r.name)).Nodup)
    (hl : m.locked = false) (hlf : m.lockFile = some lf)
    (hrepos : m.getRepositories filter = Except.ok repos)
    (hsync : m.Sync env filter = (Except.ok (some sr), some lf')) :
    ∀ (i : Nat) (r : OperationResult), sr.results[i]? = some r →
      ((r.success = true →
        (∃ repo, m.config.GetRepository r.repoName = some repo ∧
          lf'.Get r.repoName = some (NewEntry repo.url repo.rtype
            (repo.GetEffectiveRef m.config.defaultBranch) r.commitSHA env.now)) ∧
        (∃ repo, repos[i]? = some repo ∧
          m.transportResolve repo (env.repoEnv i) = Except.ok r.commitSHA))
      ∧ (r.success = false → lf'.Get r.repoName = lf.Get r.repoName)) := by
  intro i r hr
  rcases sync_ok_inversion m env filter sr (some lf') hsync with
    ⟨hsr, _, _⟩ | ⟨repos2, results, hrep2, hrt, hsr, holf⟩
  · subst hsr
    simp [SyncResult.empty] at hr
  · rw [hrepos] at hrep2
    cases hrep2
    subst hsr
    have hr' : results[i]? = some r := hr
    obtain ⟨hlen, hget⟩ := runTasks_inv { m with hasUI := true } env repos 0 results hrt
    obtain ⟨repo, hrepo_at, hsync1⟩ := hget i r hr'
    rw [Nat.zero_add] at hsync1
    obtain ⟨hname, htrans⟩ := syncRepository_some_shape _ repo _ r hsync1
    have htrans' : r.success = true →
        m.transportResolve repo (env.repoEnv i) = Except.ok r.commitSHA := htrans
    obtain ⟨hnames_nodup, hmem_cat⟩ := getRepositories_good m filter repos hnodup hrepos
    have hrepo_mem : repo ∈ repos := List.getElem?_mem hrepo_at
    have hcat : m.config.GetRepository r.repoName = some repo := by
      rw [hname]
      exact hmem_cat repo hrepo_mem
    have hmapeq : results.map (fun x => x.repoName) = repos.map (fun x => x.name) := by
      apply List.ext_getElem?
      intro j
      rw [List.getElem?_map, List.getElem?_map]
      rcases hj : results[j]? with _ | rj
      · have hjlen : results.length ≤ j := List.getElem?_eq_none_iff.mp hj
        rw [List.getElem?_eq_none (by omega)]
        rfl
      · obtain ⟨repoj, hrepoj, hsyncj⟩ := hget j rj hj
        rw [hrepoj]
        obtain ⟨hnj, _⟩ := syncRepository_some_shape _ repoj _ rj hsyncj
        simp [hnj]
    have hres_nodup : (results.map (fun x => x.repoName)).Nodup := by
      rw [hmapeq]
      exact hnames_nodup
    have hupd : ({ m with hasUI := true }).updateLockFile results env.now
        = some (results.foldl (lockUpdateStep m.config env.now) lf) := by
      unfold Manager.updateLockFile
      dsimp only
      rw [hlf]
      simp [hl]
    rw [hupd] at holf
    have hlf2 : lf' = results.foldl (lockUpdateStep m.config env.now) lf := by
      injection holf
    obtain ⟨hfold_s, hfold_f⟩ := lockFold_get_mem m.config env.now results lf r hres_nodup
      (List.getElem?_mem hr')
    constructor
    · intro hs
      constructor
      · exact ⟨repo, hcat, by rw [hlf2]; exact hfold_s hs repo hcat⟩
      · exact ⟨repo, hrepo_at, htrans' hs⟩
    · intro hs
      rw [hlf2]
      exact hfold_f hs

/-- An unlocked manager over `cfgGit` with an empty lock store. -/
def mgrUnlocked : Manager :=
  { config := cfgGit, lockFile := some ⟨[]⟩, hasUI := false
    workDir := "/w", concurrent := 4, locked := false }

/-- The filter selecting the whole catalog. -/
def filterAll : Filter := { names := [], projects := [], tags := [], all := true }

/-- The successful result `mgrUnlocked.Sync envSyncOk filterAll` yields
for `repo-a` (the transport falls back to `GetCurrentRef`). -/
def resC2 : OperationResult :=
  { repoName := "repo-a", repoURL := "git@example.com:a.git", success := true
    error := none, commitSHA := "0123456789abcdef", branch := "", tag := "" }

/-- The lock store produced by that call. -/
def lfC2 : LockFile :=
  ⟨[("repo-a", NewEntry "git@example.com:a.git" "git" "main" "0123456789abcdef" 7)]⟩

/-- Witness for C2: the claim's conclusions evaluated on a concrete
completed sync of `cfgGit`. -/
theorem spec_C2_lock_updates_witness :
    (resC2.success = true →
      (∃ repo, mgrUnlocked.config.GetRepository resC2.repoName = some repo ∧
        lfC2.Get resC2.repoName = some (NewEntry repo.url repo.rtype
          (repo.GetEffectiveRef mgrUnlocked.config.defaultBranch) resC2.commitSHA envSyncOk.now)) ∧
      (∃ repo, ([repoGit])[0]? = some repo ∧
        mgrUnlocked.transportResolve repo (envSyncOk.repoEnv 0) = Except.ok resC2.commitSHA))
    ∧ (resC2.success = false →
        lfC2.Get resC2.repoName = (⟨[]⟩ : LockFile).Get resC2.repoName) :=
  spec_C2_lock_updates mgrUnlocked ⟨[]⟩ envSyncOk filterAll [repoGit]
    (NewSyncResult [resC2]) lfC2 (by decide) rfl rfl rfl rfl 0 resC2 rfl

/-! ## Claim C6: progress streams end with a single terminal event

The four `*WithProgress` goroutines are modelled by the exact sequences
of channel sends they perform, given oracles for the external outcomes
(pipe/start/wait of the git process, its stderr lines, the HTTP backend's
per-attempt results).  A send is `blocking` when the source uses a plain
`progress <- ...` send (always delivered to a draining consumer) and
non-blocking when it uses `select { case progress <- u: default: }`
(silently dropped on a full buffer). -/

/-- One channel send performed by a progress goroutine. -/
structure ChanSend where
  blocking : Bool
  update : ProgressUpdate
deriving DecidableEq, Repr

/-- `extractPercentage`'s scan (part_008 lines 361-371): the leftmost
maximal digit run immediately followed by a percent sign, or -1. -/
def extractPercentageAux : List Char → Int
  | [] => -1
  | c :: rest =>
    if c.isDigit then
      match rest.dropWhile Char.isDigit with
      | '%' :: _ => Int.ofNat ((String.mk (c :: rest.takeWhile Char.isDigit)).toNat?.getD 0)
      | _ => extractPercentageAux (rest.dropWhile Char.isDigit)
    else extractPercentageAux rest
termination_by l => l.length
decreasing_by
  · simp only [List.length_cons]
    exact Nat.lt_succ_of_le (List.dropWhile_sublist Char.isDigit).length_le
  · simp only [List.length_cons]
    exact Nat.lt_succ_self _

/-- `downloader.extractPercentage` (part_008). -/
def extractPercentage (s : String) : Int :=
  extractPercentageAux s.data

/-- The `failed` event pushed before a goroutine returns early. -/
def failedEv (e : GoError) : ChanSend :=
  ⟨true, { phase := ProgressPhase.failed, bytesTotal := 0, bytesDone := 0
           message := "", error := some e }⟩

/-- The final `complete` event; its message carries the resolved
reference (git) or content digest (HTTP). -/
def completeEv (msg : String) : ChanSend :=
  ⟨true, { phase := ProgressPhase.complete, bytesTotal := 0, bytesDone := 0
           message := msg, error := none }⟩

/-- A blocking phase/message event. -/
def phaseEv (ph : ProgressPhase) (msg : String) : ChanSend :=
  ⟨true, { phase := ph, bytesTotal := 0, bytesDone := 0, message := msg, error := none }⟩

/-- The outcome of one underlying `downloadFileWithProgress` call: a
connection-stage failure (request error or non-2xx status, before any
event), a body failure after some chunks, or success.  Chunk sizes are
the `resp.Body.Read` return values. -/
inductive HTTPAttemptOutcome where
  | connectErr (e : GoError)
  | bodyErr (chunks : List Int) (e : GoError)
  | success (chunks : List Int) (hash : String)

/-- Oracle for one HTTP attempt: the response's Content-Length and the
body outcome. -/
structure HTTPAttemptEnv where
  contentLength : Int
  outcome : HTTPAttemptOutcome

/-- The non-blocking byte-count events of the read loop (factory.go lines
352-381): after each positive read, when a total is known, a `fetching`
event carrying the cumulative count is offered and may be dropped. -/
def httpByteEvents (total : Int) : List Int → Int → List ChanSend
  | [], _ => []
  | n :: rest, done =>
    if n > 0 then
      (if total > 0 then
        [⟨false, { phase := ProgressPhase.fetching, bytesTotal := total, bytesDone := done + n
                   message := "", error := none }⟩]
       else [])
      ++ httpByteEvents total rest (done + n)
    else httpByteEvents total rest done

/-- The events of one `downloadFileWithProgress` call together with its
return value (factory.go lines 315-389). -/
def httpAttemptEvents (env : HTTPAttemptEnv) : List ChanSend × Except GoError String :=
  match env.outcome with
  | HTTPAttemptOutcome.connectErr e => ([], Except.error e)
  | HTTPAttemptOutcome.bodyErr chunks e =>
    (phaseEv ProgressPhase.fetching "Downloading..."
      :: httpByteEvents env.contentLength chunks 0, Except.error e)
  | HTTPAttemptOutcome.success chunks hash =>
    (phaseEv ProgressPhase.fetching "Downloading..."
      :: httpByteEvents env.contentLength chunks 0, Except.ok hash)

/-- The retry loop of `HTTPDownloader.DownloadWithProgress` (factory.go
lines 222-246): a retry notice before every attempt but the first, the
attempt's own events, then either the `complete` event or — after the
last attempt — the `failed` event wrapping the last error. -/
def httpRetryEvents (opts : Options) (attempts : Nat → HTTPAttemptEnv) :
    Nat → Nat → Option GoError → List ChanSend
  | 0, _, lastErr => [failedEv (GoError.downloadFailed (lastErr.getD GoError.nilError))]
  | remaining + 1, attempt, _ =>
    (if attempt > 0 then
      [phaseEv ProgressPhase.connecting
        ("Retrying (" ++ toString attempt ++ "/" ++ toString opts.retryAttempts ++ ")...")]
     else [])
    ++ (httpAttemptEvents (attempts attempt)).1
    ++ (match (httpAttemptEvents (attempts attempt)).2 with
        | Except.ok hash => [completeEv hash]
        | Except.error e => httpRetryEvents opts attempts remaining (attempt + 1) (some e))

/-- `HTTPDownloader.DownloadWithProgress` (factory.go lines 201-250): the
full sequence of sends of the goroutine.  `mkdir` is the `os.MkdirAll`
error, if any. -/
def httpDownloadEvents (opts : Options) (mkdir : Option GoError)
    (attempts : Nat → HTTPAttemptEnv) : List ChanSend :=
  phaseEv ProgressPhase.connecting "Connecting..." ::
    match mkdir with
    | some e => [failedEv (GoError.mkdirFailed e)]
    | none => httpRetryEvents opts attempts (opts.retryAttempts + 1).toNat 0 none

/-- `HTTPDownloader.UpdateWithProgress` (factory.go lines 261-266): with
an empty source no stream exists at all (synchronous error); otherwise
the stream is the download stream. -/
def httpUpdateEvents (h : HTTPDownloader) (mkdir : Option GoError)
    (attempts : Nat → HTTPAttemptEnv) : Except GoError (List ChanSend) :=
  if h.source = "" then Except.error GoError.sourceNotSet
  else Except.ok (httpDownloadEvents h.options mkdir attempts)

/-- Oracle for one git clone/fetch subprocess interaction. -/
structure GitCloneEnv where
  pipeErr : Option GoError
  startErr : Option GoError
  scanLines : List String
  waitErr : Option GoError
  checkoutErr : Option GoError
  headSHA : Except GoError String

/-- One stderr progress line as forwarded by the scan loop (part_008
lines 129-149): phase `fetching`, the line as message, percentage mapped
onto the byte counters when one is present; offered non-blocking. -/
def gitScanEvent (line : String) : ChanSend :=
  ⟨false, { phase := ProgressPhase.fetching
            bytesTotal := if extractPercentage line ≥ 0 then 100 else 0
            bytesDone := if extractPercentage line ≥ 0 then extractPercentage line else 0
            message := line, error := none }⟩

/-- The scan loop's events: empty lines are skipped. -/
def gitScanEvents (lines : List String) : List ChanSend :=
  (lines.filter (fun l => l ≠ "")).map gitScanEvent

/-- `GitDownloader.checkoutRef`'s target (part_008 lines 309-320):
commit, else tag, else `origin/<branch>`, else nothing to do. -/
def checkoutRefName (opts : Options) : Option String :=
  if opts.commit ≠ "" then some opts.commit
  else if opts.tag ≠ "" then some opts.tag
  else if opts.branch ≠ "" then some ("origin/" ++ opts.branch)
  else none

/-- The tail shared by both git goroutines: resolve HEAD and emit the
terminal event. -/
def gitShaEvents : Except GoError String → List ChanSend
  | Except.error e => [failedEv e]
  | Except.ok sha => [completeEv sha]

/-- `GitDownloader.DownloadWithProgress` (part_008 lines 71-190): the
full sequence of sends of the clone goroutine.  The checkout step runs
only when a commit or tag is requested. -/
def gitDownloadEvents (opts : Options) (env : GitCloneEnv) : List ChanSend :=
  phaseEv ProgressPhase.connecting "Connecting to remote..." ::
  phaseEv ProgressPhase.fetching "Cloning repository..." ::
  match env.pipeErr with
  | some e => [failedEv (GoError.pipeFailed e)]
  | none =>
    match env.startErr with
    | some e => [failedEv (GoError.gitStartFailed e)]
    | none =>
      gitScanEvents env.scanLines ++
      match env.waitErr with
      | some e => [failedEv (GoError.cloneFailed e)]
      | none =>
        if opts.commit ≠ "" ∨ opts.tag ≠ "" then
          phaseEv ProgressPhase.checkout "Checking out ref..." ::
          match checkoutRefName opts with
          | some ref =>
            match env.checkoutErr with
            | some e => [failedEv (GoError.checkoutFailed ref e)]
            | none => gitShaEvents env.headSHA
          | none => gitShaEvents env.headSHA
        else gitShaEvents env.headSHA

/-- `GitDownloader.UpdateWithProgress` (part_008 lines 210-302): the full
sequence of sends of the fetch-and-checkout goroutine; here the checkout
step always runs. -/
def gitUpdateEvents (opts : Options) (env : GitCloneEnv) : List ChanSend :=
  phaseEv ProgressPhase.fetching "Fetching updates..." ::
  match env.pipeErr with
  | some e => [failedEv (GoError.pipeFailed e)]
  | none =>
    match env.startErr with
    | some e => [failedEv (GoError.gitStartFailed e)]
    | none =>
      gitScanEvents env.scanLines ++
      match env.waitErr with
      | some e => [failedEv (GoError.fetchFailed e)]
      | none =>
        phaseEv ProgressPhase.checkout "Checking out..." ::
        match checkoutRefName opts with
        | some ref =>
          match env.checkoutErr with
          | some e => [failedEv (GoError.checkoutFailed ref e)]
          | none => gitShaEvents env.headSHA
        | none => gitShaEvents env.headSHA

/-- The stream invariant at the send level: a single final terminal
event, sent blocking, with everything before it non-terminal. -/
def terminalShape (evs : List ChanSend) : Prop :=
  ∃ pre last, evs = pre ++ [last] ∧ last.blocking = true ∧
    last.update.IsComplete = true ∧ ∀ e ∈ pre, e.update.IsComplete = false

theorem terminalShape_failed (e : GoError) : terminalShape [failedEv e] :=
  ⟨[], failedEv e, rfl, rfl, rfl, by intro x hx; cases hx⟩

theorem terminalShape_complete (msg : String) : terminalShape [completeEv msg] :=
  ⟨[], completeEv msg, rfl, rfl, rfl, by intro x hx; cases hx⟩

theorem terminalShape_append (pre evs : List ChanSend)
    (hpre : ∀ e ∈ pre, e.update.IsComplete = false) (h : terminalShape evs) :
    terminalShape (pre ++ evs) := by
  obtain ⟨p, last, heq, hb, ht, hp⟩ := h
  subst heq
  refine ⟨pre ++ p, last, by rw [List.append_assoc], hb, ht, ?_⟩
  intro e he
  rcases List.mem_append.mp he with he | he
  · exact hpre e he
  · exact hp e he

theorem terminalShape_cons (e : ChanSend) (evs : List ChanSend)
    (he : e.update.IsComplete = false) (h : terminalShape evs) :
    terminalShape (e :: evs) :=
  terminalShape_append [e] evs
    (by intro x hx; rw [List.mem_singleton] at hx; subst hx; exact he) h

theorem phaseEv_not_terminal (ph : ProgressPhase) (msg : String)
    (h1 : ph ≠ ProgressPhase.complete) (h2 : ph ≠ ProgressPhase.failed) :
    (phaseEv ph msg).update.IsComplete = false := by
  simp [phaseEv, ProgressUpdate.IsComplete, h1, h2]

theorem gitScanEvents_not_terminal (lines : List String) :
    ∀ e ∈ gitScanEvents lines, e.update.IsComplete = false := by
  intro e he
  unfold gitScanEvents at he
  rw [List.mem_map] at he
  obtain ⟨l, _, rfl⟩ := he
  simp [gitScanEvent, ProgressUpdate.IsComplete]

theorem httpByteEvents_not_terminal (total : Int) :
    ∀ (chunks : List Int) (done : Int), ∀ e ∈ httpByteEvents total chunks done,
      e.update.IsComplete = false := by
  intro chunks
  induction chunks with
  | nil => intro done e he; cases he
  | cons n rest ih =>
    intro done e he
    unfold httpByteEvents at he
    by_cases hn : n > 0
    · rw [if_pos hn] at he
      by_cases htot : total > 0
      · rw [if_pos htot] at he
        rcases List.mem_append.mp he with he | he
        · rw [List.mem_singleton] at he
          subst he
          simp [ProgressUpdate.IsComplete]
        · exact ih _ e he
      · rw [if_neg htot, List.nil_append] at he
        exact ih _ e he
    · rw [if_neg hn] at he
      exact ih _ e he

theorem httpAttemptEvents_not_terminal (env : HTTPAttemptEnv) :
    ∀ e ∈ (httpAttemptEvents env).1, e.update.IsComplete = false := by
  intro e he
  unfold httpAttemptEvents at he
  split at he
  · cases he
  · rcases List.mem_cons.mp he with rfl | he
    · exact phaseEv_not_terminal _ _ (by decide) (by decide)
    · exact httpByteEvents_not_terminal _ _ _ e he
  · rcases List.mem_cons.mp he with rfl | he
    · exact phaseEv_not_terminal _ _ (by decide) (by decide)
    · exact httpByteEvents_not_terminal _ _ _ e he

theorem gitSha_shape (r : Except GoError String) : terminalShape (gitShaEvents r) := by
  rcases r with e | sha
  · exact terminalShape_failed e
  · exact terminalShape_complete sha

theorem httpRetryEvents_shape (opts : Options) (attempts : Nat → HTTPAttemptEnv) :
    ∀ (remaining attempt : Nat) (lastErr : Option GoError),
      terminalShape (httpRetryEvents opts attempts remaining attempt lastErr) := by
  intro remaining
  induction remaining with
  | zero => intro attempt lastErr; exact terminalShape_failed _
  | succ rem ih =>
    intro attempt lastErr
    unfold httpRetryEvents
    apply terminalShape_append
    · intro e he
      rcases List.mem_append.mp he with he | he
      · by_cases ha : attempt > 0
        · rw [if_pos ha, List.mem_singleton] at he
          subst he
          exact phaseEv_not_terminal _ _ (by decide) (by decide)
        · rw [if_neg ha] at he
          cases he
      · exact httpAttemptEvents_not_terminal (attempts attempt) e he
    · rcases (httpAttemptEvents (attempts attempt)).2 with e | hash
      · exact ih (attempt + 1) (some e)
      · exact terminalShape_complete hash

theorem httpDownloadEvents_shape (opts : Options) (mkdir : Option GoError)
    (attempts : Nat → HTTPAttemptEnv) :
    terminalShape (httpDownloadEvents opts mkdir attempts) := by
  unfold httpDownloadEvents
  apply terminalShape_cons _ _ (phaseEv_not_terminal _ _ (by decide) (by decide))
  rcases mkdir with _ | e
  · exact httpRetryEvents_shape opts attempts _ 0 none
  · exact terminalShape_failed _

theorem gitDownloadEvents_shape (opts : Options) (env : GitCloneEnv) :
    terminalShape (gitDownloadEvents opts env) := by
  unfold gitDownloadEvents
  apply terminalShape_cons _ _ (phaseEv_not_terminal _ _ (by decide) (by decide))
  apply terminalShape_cons _ _ (phaseEv_not_terminal _ _ (by decide) (by decide))
  rcases env.pipeErr with _ | e
  · rcases env.startErr with _ | e
    · apply terminalShape_append _ _ (gitScanEvents_not_terminal env.scanLines)
      rcases env.waitErr with _ | e
      · by_cases hco : opts.commit ≠ "" ∨ opts.tag ≠ ""
        · rw [if_pos hco]
          apply terminalShape_cons _ _ (phaseEv_not_terminal _ _ (by decide) (by decide))
          rcases checkoutRefName opts with _ | ref
          · exact gitSha_shape env.headSHA
          · rcases env.checkoutErr with _ | e
            · exact gitSha_shape env.headSHA
            · exact terminalShape_failed _
        · rw [if_neg hco]
          exact gitSha_shape env.headSHA
      · exact terminalShape_failed _
    · exact terminalShape_failed _
  · exact terminalShape_failed _

theorem gitUpdateEvents_shape (opts : Options) (env : GitCloneEnv) :
    terminalShape (gitUpdateEvents opts env) := by
  unfold gitUpdateEvents
  apply terminalShape_cons _ _ (phaseEv_not_terminal _ _ (by decide) (by decide))
  rcases env.pipeErr with _ | e
  · rcases env.startErr with _ | e
    · apply terminalShape_append _ _ (gitScanEvents_not_terminal env.scanLines)
      rcases env.waitErr with _ | e
      · apply terminalShape_cons _ _ (phaseEv_not_terminal _ _ (by decide) (by decide))
        rcases checkoutRefName opts with _ | ref
        · exact gitSha_shape env.headSHA
        · rcases env.checkoutErr with _ | e
          · exact gitSha_shape env.headSHA
          · exact terminalShape_failed _
      · exact terminalShape_failed _
    · exact terminalShape_failed _
  · exact terminalShape_failed _

/-- The consumer's view of a channel drain: every blocking send is
delivered in order; a non-blocking send may be dropped (buffer full). -/
inductive Delivered : List ChanSend → List ProgressUpdate → Prop where
  | nil : Delivered [] []
  | keep (e : ChanSend) (s : List ChanSend) (r : List ProgressUpdate) :
      Delivered s r → Delivered (e :: s) (e.update :: r)
  | drop (e : ChanSend) (s : List ChanSend) (r : List ProgressUpdate)
      (hb : e.blocking = false) : Delivered s r → Delivered (e :: s) r

/-- The claim's property of a drained stream: the last received event is
terminal and nothing received before it is. -/
def terminalReceived (recv : List ProgressUpdate) : Prop :=
  ∃ pre last, recv = pre ++ [last] ∧ last.IsComplete = true ∧
    ∀ u ∈ pre, u.IsComplete = false

theorem delivered_nil_inv (r : List ProgressUpdate) (h : Delivered [] r) : r = [] := by
  cases h
  rfl

theorem delivered_terminal (sent : List ChanSend) (recv : List ProgressUpdate)
    (hd : Delivered sent recv) :
    ∀ (pre : List ChanSend) (last : ChanSend), sent = pre ++ [last] →
      last.blocking = true → last.update.IsComplete = true →
      (∀ e ∈ pre, e.update.IsComplete = false) →
      terminalReceived recv := by
  induction hd with
  | nil =>
    intro pre last heq
    exact absurd heq (by simp)
  | keep e s r hdel ih =>
    intro pre last heq hb ht hpre
    cases pre with
    | nil =>
      rw [List.nil_append] at heq
      injection heq with h1 h2
      subst h1
      subst h2
      rw [delivered_nil_inv r hdel]
      exact ⟨[], e.update, rfl, ht, by intro u hu; cases hu⟩
    | cons p0 pre' =>
      rw [List.cons_append] at heq
      injection heq with h1 h2
      subst h1
      obtain ⟨q, last', hq, ht', hq2⟩ := ih pre' last h2 hb ht
        (fun x hx => hpre x (List.mem_cons_of_mem _ hx))
      refine ⟨e.update :: q, last', by rw [hq, List.cons_append], ht', ?_⟩
      intro u hu
      rcases List.mem_cons.mp hu with rfl | hu
      · exact hpre e (List.mem_cons_self _ _)
      · exact hq2 u hu
  | drop e s r hb2 hdel ih =>
    intro pre last heq hb ht hpre
    cases pre with
    | nil =>
      rw [List.nil_append] at heq
      injection heq with h1 h2
      subst h1
      rw [hb2] at hb
      cases hb
    | cons p0 pre' =>
      rw [List.cons_append] at heq
      injection heq with h1 h2
      exact ih pre' last h2 hb ht (fun x hx => hpre x (List.mem_cons_of_mem _ hx))

/-- Claim C6: for every progress stream returned by
`DownloadWithProgress` or `UpdateWithProgress` of either transport and
every execution and drain of the channel, the last delivered event has
phase `complete` or `failed` and no event is delivered after it.  Every
goroutine emits exactly one terminal event, blocking, as its final send,
and then returns, firing the single deferred `close(progress)` — channel
closure is the end of the modelled send list. -/
theorem spec_C6_terminal_streams :
    (∀ (opts : Options) (env : GitCloneEnv) (recv : List ProgressUpdate),
        Delivered (gitDownloadEvents opts env) recv → terminalReceived recv)
    ∧ (∀ (opts : Options) (env : GitCloneEnv) (recv : List ProgressUpdate),
        Delivered (gitUpdateEvents opts env) recv → terminalReceived recv)
    ∧ (∀ (opts : Options) (mkdir : Option GoError) (attempts : Nat → HTTPAttemptEnv)
        (recv : List ProgressUpdate),
        Delivered (httpDownloadEvents opts mkdir attempts) recv → terminalReceived recv)
    ∧ (∀ (h : HTTPDownloader) (mkdir : Option GoError) (attempts : Nat → HTTPAttemptEnv)
        (evs : List ChanSend) (recv : List ProgressUpdate),
        httpUpdateEvents h mkdir attempts = Except.ok evs →
        Delivered evs recv → terminalReceived recv) := by
  have main : ∀ (sent : List ChanSend) (recv : List ProgressUpdate),
      terminalShape sent → Delivered sent recv → terminalReceived recv := by
    intro sent recv hshape hdel
    obtain ⟨pre, last, heq, hb, ht, hpre⟩ := hshape
    exact delivered_terminal sent recv hdel pre last heq hb ht hpre
  refine ⟨?_, ?_, ?_, ?_⟩
  · intro opts env recv hd
    exact main _ recv (gitDownloadEvents_shape opts env) hd
  · intro opts env recv hd
    exact main _ recv (gitUpdateEvents_shape opts env) hd
  · intro opts mkdir attempts recv hd
    exact main _ recv (httpDownloadEvents_shape opts mkdir attempts) hd
  · intro h mkdir attempts evs recv hup hd
    unfold httpUpdateEvents at hup
    split at hup
    · cases hup
    · cases hup
      exact main _ recv (httpDownloadEvents_shape _ mkdir attempts) hd

/-- A git subprocess interaction where everything succeeds. -/
def gitEnvOk : GitCloneEnv :=
  { pipeErr := none, startErr := none, scanLines := [], waitErr := none
    checkoutErr := none, headSHA := Except.ok "abcdef0123" }

/-- Witness for C6: a concrete fully-delivered clone stream ends in the
`complete` event and in nothing else. -/
theorem spec_C6_terminal_streams_witness :
    terminalReceived
      [(phaseEv ProgressPhase.connecting "Connecting to remote...").update,
       (phaseEv ProgressPhase.fetching "Cloning repository...").update,
       (completeEv "abcdef0123").update] := by
  refine spec_C6_terminal_streams.1 optsC5 gitEnvOk _ ?_
  have hev : gitDownloadEvents optsC5 gitEnvOk =
      [phaseEv ProgressPhase.connecting "Connecting to remote...",
       phaseEv ProgressPhase.fetching "Cloning repository...",
       completeEv "abcdef0123"] := rfl
  rw [hev]
  exact Delivered.keep _ _ _ (Delivered.keep _ _ _ (Delivered.keep _ _ _ Delivered.nil))

/-! ## Claim C7: Download vs DownloadWithProgress of the git backend -/

/-- A git subprocess invocation issued by the version-control backend. -/
inductive GitCmd where
  | clone (args : List String) (source dest : String)
  | checkout (ref : String) (dest : String)
  | revParseHead (dest : String)
deriving DecidableEq, Repr

/-- The clone argument list built by `Download` (part_008 lines 39-54)
and by `DownloadWithProgress` (lines 84-99); the two builders differ only
in the `--progress` flag. -/
def gitCloneArgs (opts : Options) (withProgress : Bool) : List String :=
  (if withProgress then ["clone", "--progress"] else ["clone"])
  ++ (if opts.shallow ∧ opts.depth > 0 then ["--depth", toString opts.depth] else [])
  ++ (if opts.branch ≠ "" ∧ opts.tag = "" ∧ opts.commit = "" then
        ["--branch", opts.branch, "--single-branch"] else [])
  ++ (if opts.submodules then ["--recurse-submodules"] else [])

/-- The commands `checkoutRef` issues (part_008 lines 309-329): one
forced checkout of the selected ref, or nothing. -/
def checkoutRefCmds (opts : Options) (dest : String) : List GitCmd :=
  match checkoutRefName opts with
  | some ref => [GitCmd.checkout ref dest]
  | none => []

/-- The git commands `GitDownloader.Download` issues on its success path
(part_008 lines 35-68): clone, `checkoutRef` unconditionally, then
`rev-parse HEAD`. -/
def gitDownloadCmds (opts : Options) (source dest : String) : List GitCmd :=
  GitCmd.clone (gitCloneArgs opts false) source dest
    :: (checkoutRefCmds opts dest ++ [GitCmd.revParseHead dest])

/-- The git commands `GitDownloader.DownloadWithProgress` issues on its
success path (part_008 lines 71-190): clone with `--progress`,
`checkoutRef` only when a commit or tag is requested, then
`rev-parse HEAD`. -/
def gitDownloadWithProgressCmds (opts : Options) (source dest : String) : List GitCmd :=
  GitCmd.clone (gitCloneArgs opts true) source dest
    :: ((if opts.commit ≠ "" ∨ opts.tag ≠ "" then checkoutRefCmds opts dest else [])
        ++ [GitCmd.revParseHead dest])

/-- Branch-only reference selector used by the C7 counterexample. -/
def optsBranchOnly : Options :=
  { branch := "main", tag := "", commit := "", depth := 1, shallow := true
    submodules := true, userAgent := "", retryAttempts := 0, retryDelay := 0, timeout := 0 }

/-- Counterexample to C7 as stated: with only a branch requested, the two
variants are not the same operation modulo progress.  After the clone,
`Download` additionally runs `git checkout --force origin/main` (leaving
a detached HEAD), which `DownloadWithProgress` skips, so they do not
materialize the same local state. -/
theorem spec_C7_counterexample :
    (gitDownloadCmds optsBranchOnly "src" "dst").tail =
      [GitCmd.checkout "origin/main" "dst", GitCmd.revParseHead "dst"]
    ∧ (gitDownloadWithProgressCmds optsBranchOnly "src" "dst").tail =
      [GitCmd.revParseHead "dst"]
    ∧ (gitDownloadCmds optsBranchOnly "src" "dst").tail ≠
      (gitDownloadWithProgressCmds optsBranchOnly "src" "dst").tail := by
  refine ⟨rfl, rfl, by decide⟩

/-- Claim C7 (amended): the two variants issue the same clone except for
the `--progress` flag, and issue identical commands after the clone —
hence materialize the same state and report the same resolved reference —
exactly when a commit or tag is requested or no selector at all is set.
When only a branch is requested, `Download` performs an extra
`git checkout --force origin/<branch>` after the clone, which
`DownloadWithProgress` does not. -/
theorem spec_C7_download_equiv (opts : Options) (source dest : String) :
    (gitCloneArgs opts true = ["clone", "--progress"] ++ (gitCloneArgs opts false).drop 1)
    ∧ ((gitDownloadCmds opts source dest).tail =
        (gitDownloadWithProgressCmds opts source dest).tail
      ↔ (opts.commit ≠ "" ∨ opts.tag ≠ "" ∨ opts.branch = "")) := by
  constructor
  · simp [gitCloneArgs]
  · show (checkoutRefCmds opts dest ++ [GitCmd.revParseHead dest] =
      (if opts.commit ≠ "" ∨ opts.tag ≠ "" then checkoutRefCmds opts dest else [])
        ++ [GitCmd.revParseHead dest]) ↔ _
    by_cases hc : opts.commit = ""
    · by_cases ht : opts.tag = ""
      · by_cases hb : opts.branch = ""
        · simp [checkoutRefCmds, checkoutRefName, hc, ht, hb]
        · have hcr : checkoutRefCmds opts dest =
              [GitCmd.checkout ("origin/" ++ opts.branch) dest] := by
            simp [checkoutRefCmds, checkoutRefName, hc, ht, hb]
          rw [hcr]
          simp [hc, ht, hb]
      · simp [hc, ht]
    · simp [hc]

/-! ## Claim C9: the concurrency bound

`Sync`'s task pool (operations.go lines 42-60) is modelled as a trace of
scheduler events.  Task `i` executes, in program order, `acquire i`
(`sem.acquire()`), `start i` / `finish i` (bracketing the
`syncRepository` transport work), and `release i` (the deferred
`sem.release()`); `ret` is `Sync` returning after `wg.Wait()`.  A trace
is valid when it interleaves the per-task programs, respects the
semaphore's channel capacity `n` (never more acquires than releases plus
`n` in any prefix), and returns only after every task's release (each
deferred `wg.Done` runs after the deferred release). -/

/-- Scheduler events of one `Sync` call. -/
inductive SchedEv where
  | acquire (i : Nat)
  | start (i : Nat)
  | finish (i : Nat)
  | release (i : Nat)
  | ret
deriving DecidableEq, Repr

/-- The program order of task `i` (operations.go lines 50-56). -/
def taskTrace (i : Nat) : List SchedEv :=
  [SchedEv.acquire i, SchedEv.start i, SchedEv.finish i, SchedEv.release i]

/-- Whether an event belongs to task `i`. -/
def belongsTo (i : Nat) : SchedEv → Bool
  | SchedEv.acquire j => j = i
  | SchedEv.start j => j = i
  | SchedEv.finish j => j = i
  | SchedEv.release j => j = i
  | SchedEv.ret => false

/-- Permit acquisitions (sends into the semaphore channel). -/
def isAcquire : SchedEv → Bool
  | SchedEv.acquire _ => true
  | _ => false

/-- Permit releases (receives from the semaphore channel). -/
def isRelease : SchedEv → Bool
  | SchedEv.release _ => true
  | _ => false

/-- Validity of a trace of `Sync` with `k` tasks under bound `n`:
every event is a task event (task index below `k`) or the single return;
each task's events occur exactly in program order; every prefix holds at
most `n` unreleased permits (the semaphore is a channel of capacity `n`);
and the return is preceded by every task's release. -/
def ValidSchedule (k n : Nat) (tr : List SchedEv) : Prop :=
  (∀ e ∈ tr, e = SchedEv.ret ∨ ∃ i, i < k ∧ belongsTo i e = true)
  ∧ (∀ i, i < k → tr.filter (belongsTo i) = taskTrace i)
  ∧ (∀ m, m ≤ tr.length →
      (tr.take m).countP isAcquire ≤ n + (tr.take m).countP isRelease)
  ∧ (∀ m, m ≤ tr.length → SchedEv.ret ∈ tr.take m →
      ∀ i, i < k → SchedEv.release i ∈ tr.take m)

theorem prefix_four {α : Type} (w x y z : α) (A B : List α)
    (hB : A ++ B = [w, x, y, z]) :
    A = [] ∨ A = [w] ∨ A = [w, x] ∨ A = [w, x, y] ∨ A = [w, x, y, z] := by
  cases A with
  | nil => exact Or.inl rfl
  | cons a1 A =>
    injection hB with h1 hB
    subst h1
    cases A with
    | nil => exact Or.inr (Or.inl rfl)
    | cons a2 A =>
      injection hB with h1 hB
      subst h1
      cases A with
      | nil => exact Or.inr (Or.inr (Or.inl rfl))
      | cons a3 A =>
        injection hB with h1 hB
        subst h1
        cases A with
        | nil => exact Or.inr (Or.inr (Or.inr (Or.inl rfl)))
        | cons a4 A =>
          injection hB with h1 hB
          subst h1
          cases A with
          | nil => exact Or.inr (Or.inr (Or.inr (Or.inr rfl)))
          | cons a5 A => exact absurd hB (by simp)

theorem taskPrefix_facts (i : Nat) (A B : List SchedEv)
    (hB : A ++ B = taskTrace i) :
    (SchedEv.start i ∈ A → SchedEv.acquire i ∈ A)
    ∧ (SchedEv.release i ∈ A → SchedEv.finish i ∈ A)
    ∧ (SchedEv.release i ∈ A → SchedEv.acquire i ∈ A) := by
  rcases prefix_four _ _ _ _ A B hB with h | h | h | h | h <;> subst h <;> simp

theorem sched_precede (k n : Nat) (tr : List SchedEv) (hv : ValidSchedule k n tr)
    (t1 t2 : List SchedEv) (hsplit : tr = t1 ++ t2) (i : Nat) (hi : i < k) :
    (SchedEv.start i ∈ t1 → SchedEv.acquire i ∈ t1)
    ∧ (SchedEv.release i ∈ t1 → SchedEv.finish i ∈ t1)
    ∧ (SchedEv.release i ∈ t1 → SchedEv.acquire i ∈ t1) := by
  have hpt := hv.2.1 i hi
  rw [hsplit, List.filter_append] at hpt
  have hfacts := taskPrefix_facts i (t1.filter (belongsTo i)) (t2.filter (belongsTo i)) hpt
  refine ⟨?_, ?_, ?_⟩
  · intro h
    have h1 : SchedEv.start i ∈ t1.filter (belongsTo i) :=
      List.mem_filter.mpr ⟨h, by simp [belongsTo]⟩
    exact (List.mem_filter.mp (hfacts.1 h1)).1
  · intro h
    have h1 : SchedEv.release i ∈ t1.filter (belongsTo i) :=
      List.mem_filter.mpr ⟨h, by simp [belongsTo]⟩
    exact (List.mem_filter.mp (hfacts.2.1 h1)).1
  · intro h
    have h1 : SchedEv.release i ∈ t1.filter (belongsTo i) :=
      List.mem_filter.mpr ⟨h, by simp [belongsTo]⟩
    exact (List.mem_filter.mp (hfacts.2.2 h1)).1

theorem countP_sel_eq_card (k : Nat) (mk : Nat → SchedEv) (isSel : SchedEv → Bool)
    (hmk : ∀ j, isSel (mk j) = true)
    (hretf : isSel SchedEv.ret = false)
    (hsel : ∀ e, isSel e = true → ∃ j, e = mk j)
    (hinj : ∀ i j, mk i = mk j → i = j)
    (hidx : ∀ j i, belongsTo i (mk j) = true → i = j) :
    ∀ (l : List SchedEv),
      (∀ e ∈ l, e = SchedEv.ret ∨ ∃ i, i < k ∧ belongsTo i e = true) →
      (∀ i, i < k → l.count (mk i) ≤ 1) →
      l.countP isSel = ((Finset.range k).filter (fun i => mk i ∈ l)).card := by
  intro l
  induction l with
  | nil => simp
  | cons e rest ih =>
    intro hev hcnt
    have hev' : ∀ x ∈ rest, x = SchedEv.ret ∨ ∃ i, i < k ∧ belongsTo i x = true :=
      fun x hx => hev x (List.mem_cons_of_mem _ hx)
    have hcnt' : ∀ i, i < k → rest.count (mk i) ≤ 1 := by
      intro i hi
      have h1 := hcnt i hi
      rw [List.count_cons] at h1
      omega
    by_cases he : isSel e = true
    · obtain ⟨j, rfl⟩ := hsel e he
      have hj : j < k := by
        rcases hev (mk j) (List.mem_cons_self _ _) with h | ⟨i, hik, hb⟩
        · rw [h, hretf] at he
          cases he
        · rw [hidx j i hb] at hik
          exact hik
      have hnotin : mk j ∉ rest := by
        intro hmem
        have h1 := hcnt j hj
        rw [List.count_cons] at h1
        have h2 := List.count_pos_iff.mpr hmem
        simp at h1
        omega
      rw [List.countP_cons, ih hev' hcnt', hmk j]
      have hset : (Finset.range k).filter (fun i => mk i ∈ mk j :: rest)
          = insert j ((Finset.range k).filter (fun i => mk i ∈ rest)) := by
        ext i
        simp only [Finset.mem_filter, Finset.mem_range, Finset.mem_insert, List.mem_cons]
        constructor
        · rintro ⟨hik, h | h⟩
          · exact Or.inl (hinj i j h)
          · exact Or.inr ⟨hik, h⟩
        · rintro (rfl | ⟨hik, h⟩)
          · exact ⟨hj, Or.inl rfl⟩
          · exact ⟨hik, Or.inr h⟩
      rw [hset, Finset.card_insert_of_not_mem]
      · simp
      · simp only [Finset.mem_filter, Finset.mem_range]
        intro hcontra
        exact hnotin hcontra.2
    · have hne : ∀ i, ¬ (mk i = e) := by
        intro i h
        rw [← h] at he
        exact he (hmk i)
      have hisF : isSel e = false := by
        cases hb : isSel e
        · rfl
        · exact absurd hb he
      rw [List.countP_cons, ih hev' hcnt', hisF]
      have hset : (Finset.range k).filter (fun i => mk i ∈ e :: rest)
          = (Finset.range k).filter (fun i => mk i ∈ rest) := by
        apply Finset.filter_congr
        intro i _
        simp only [List.mem_cons]
        constructor
        · rintro (h | h)
          · exact absurd h (hne i)
          · exact h
        · exact fun h => Or.inr h
      rw [hset]
      simp

theorem sched_count_one (k n : Nat) (tr : List SchedEv) (hv : ValidSchedule k n tr)
    (i : Nat) (hi : i < k) (e : SchedEv) (hb : belongsTo i e = true)
    (htc : (taskTrace i).count e = 1) : tr.count e = 1 := by
  have h1 : (tr.filter (belongsTo i)).count e = tr.count e := List.count_filter hb
  rw [← h1, hv.2.1 i hi, htc]

theorem sched_inflight_le (k n : Nat) (tr : List SchedEv) (hv : ValidSchedule k n tr)
    (t1 t2 : List SchedEv) (hsplit : tr = t1 ++ t2) :
    ((Finset.range k).filter
      (fun i => SchedEv.start i ∈ t1 ∧ SchedEv.finish i ∉ t1)).card ≤ n := by
  have hev1 : ∀ e ∈ t1, e = SchedEv.ret ∨ ∃ i, i < k ∧ belongsTo i e = true := by
    intro e he
    exact hv.1 e (by rw [hsplit]; exact List.mem_append_left _ he)
  have hcntA : ∀ i, i < k → t1.count (SchedEv.acquire i) ≤ 1 := by
    intro i hi
    have h2 : tr.count (SchedEv.acquire i) = 1 :=
      sched_count_one k n tr hv i hi _ (by simp [belongsTo]) (by simp [taskTrace])
    have h3 : t1.count (SchedEv.acquire i) ≤ tr.count (SchedEv.acquire i) := by
      rw [hsplit, List.count_append]
      omega
    omega
  have hcntR : ∀ i, i < k → t1.count (SchedEv.release i) ≤ 1 := by
    intro i hi
    have h2 : tr.count (SchedEv.release i) = 1 :=
      sched_count_one k n tr hv i hi _ (by simp [belongsTo]) (by simp [taskTrace])
    have h3 : t1.count (SchedEv.release i) ≤ tr.count (SchedEv.release i) := by
      rw [hsplit, List.count_append]
      omega
    omega
  have hA := countP_sel_eq_card k SchedEv.acquire isAcquire (fun _ => rfl) rfl
    (fun e he => by cases e <;> first | exact ⟨_, rfl⟩ | cases he)
    (fun i j h => by injection h)
    (fun j i hb => (show j = i by simpa [belongsTo] using hb).symm)
    t1 hev1 hcntA
  have hR := countP_sel_eq_card k SchedEv.release isRelease (fun _ => rfl) rfl
    (fun e he => by cases e <;> first | exact ⟨_, rfl⟩ | cases he)
    (fun i j h => by injection h)
    (fun j i hb => (show j = i by simpa [belongsTo] using hb).symm)
    t1 hev1 hcntR
  have htake : tr.take t1.length = t1 := by
    rw [hsplit]
    exact List.take_left ..
  have hsb := hv.2.2.1 t1.length (by rw [hsplit]; simp)
  rw [htake, hA, hR] at hsb
  have hsubR : (Finset.range k).filter (fun i => SchedEv.release i ∈ t1) ⊆
      (Finset.range k).filter (fun i => SchedEv.acquire i ∈ t1) := by
    intro i hmem
    simp only [Finset.mem_filter, Finset.mem_range] at hmem ⊢
    exact ⟨hmem.1, (sched_precede k n tr hv t1 t2 hsplit i hmem.1).2.2 hmem.2⟩
  have hsubI : (Finset.range k).filter
      (fun i => SchedEv.start i ∈ t1 ∧ SchedEv.finish i ∉ t1) ⊆
      ((Finset.range k).filter (fun i => SchedEv.acquire i ∈ t1)) \
      ((Finset.range k).filter (fun i => SchedEv.release i ∈ t1)) := by
    intro i hmem
    simp only [Finset.mem_filter, Finset.mem_range, Finset.mem_sdiff] at hmem ⊢
    obtain ⟨hik, hstart, hnfin⟩ := hmem
    refine ⟨⟨hik, (sched_precede k n tr hv t1 t2 hsplit i hik).1 hstart⟩, ?_⟩
    intro hc
    exact hnfin ((sched_precede k n tr hv t1 t2 hsplit i hik).2.1 hc.2)
  calc ((Finset.range k).filter
      (fun i => SchedEv.start i ∈ t1 ∧ SchedEv.finish i ∉ t1)).card
      ≤ (((Finset.range k).filter (fun i => SchedEv.acquire i ∈ t1)) \
        ((Finset.range k).filter (fun i => SchedEv.release i ∈ t1))).card :=
        Finset.card_le_card hsubI
    _ = ((Finset.range k).filter (fun i => SchedEv.acquire i ∈ t1)).card
        - ((Finset.range k).filter (fun i => SchedEv.release i ∈ t1)).card :=
        Finset.card_sdiff hsubR
    _ ≤ n := by omega

/-- Claim C9: under any valid schedule of one `Sync` call with `k` tasks
and concurrency bound `n`: (1) at any point at most `n` per-repository
transport operations are in flight simultaneously; (2) the call returns
only after every task's work has finished; (3) each task acquires its
permit before its work begins (release on completion is task program
order, part of schedule validity); and (4) the bound defaults to 4 and
ignores non-positive overrides. -/
theorem spec_C9_concurrency_bound (k n : Nat) (tr : List SchedEv)
    (hv : ValidSchedule k n tr) :
    (∀ t1 t2, tr = t1 ++ t2 →
      ((Finset.range k).filter
        (fun i => SchedEv.start i ∈ t1 ∧ SchedEv.finish i ∉ t1)).card ≤ n)
    ∧ (∀ t1 t2, tr = t1 ++ t2 → SchedEv.ret ∈ t1 →
        ∀ i, i < k → SchedEv.finish i ∈ t1)
    ∧ (∀ t1 t2, tr = t1 ++ t2 → ∀ i, i < k →
        SchedEv.start i ∈ t1 → SchedEv.acquire i ∈ t1)
    ∧ (∀ cfg : Config, (NewRepositoryManager cfg).concurrent = 4)
    ∧ (∀ (m : Manager) (j : Int),
        (0 < j → (m.withConcurrency j).concurrent = j)
        ∧ (j ≤ 0 → (m.withConcurrency j).concurrent = m.concurrent)) := by
  refine ⟨?_, ?_, ?_, fun _ => rfl, ?_⟩
  · intro t1 t2 hsplit
    exact sched_inflight_le k n tr hv t1 t2 hsplit
  · intro t1 t2 hsplit hret i hi
    have htake : tr.take t1.length = t1 := by
      rw [hsplit]
      exact List.take_left ..
    have hrel := hv.2.2.2 t1.length (by rw [hsplit]; simp) (by rw [htake]; exact hret) i hi
    rw [htake] at hrel
    exact (sched_precede k n tr hv t1 t2 hsplit i hi).2.1 hrel
  · intro t1 t2 hsplit i hi
    exact (sched_precede k n tr hv t1 t2 hsplit i hi).1
  · intro m j
    constructor
    · intro hj
      simp [Manager.withConcurrency, hj]
    · intro hj
      have : ¬ (j > 0) := by omega
      simp [Manager.withConcurrency, this]

/-- A valid two-task schedule under bound 1: the tasks run one after the
other, then the call returns. -/
def trC9 : List SchedEv :=
  [SchedEv.acquire 0, SchedEv.start 0, SchedEv.finish 0, SchedEv.release 0,
   SchedEv.acquire 1, SchedEv.start 1, SchedEv.finish 1, SchedEv.release 1,
   SchedEv.ret]

/-- Witness for C9 at the concrete schedule `trC9` with `k = 2`, `n = 1`. -/
theorem spec_C9_concurrency_bound_witness :
    (∀ t1 t2, trC9 = t1 ++ t2 →
      ((Finset.range 2).filter
        (fun i => SchedEv.start i ∈ t1 ∧ SchedEv.finish i ∉ t1)).card ≤ 1)
    ∧ (∀ t1 t2, trC9 = t1 ++ t2 → SchedEv.ret ∈ t1 →
        ∀ i, i < 2 → SchedEv.finish i ∈ t1)
    ∧ (∀ t1 t2, trC9 = t1 ++ t2 → ∀ i, i < 2 →
        SchedEv.start i ∈ t1 → SchedEv.acquire i ∈ t1)
    ∧ (∀ cfg : Config, (NewRepositoryManager cfg).concurrent = 4)
    ∧ (∀ (m : Manager) (j : Int),
        (0 < j → (m.withConcurrency j).concurrent = j)
        ∧ (j ≤ 0 → (m.withConcurrency j).concurrent = m.concurrent)) :=
  spec_C9_concurrency_bound 2 1 trC9 (by unfold ValidSchedule; decide)

end HarborMaster
